import Mathlib

/-!
# Verification of the Revenium Anthropic middleware (Go) against its specification

Shallow embedding of the middleware's core functions:
stop-reason normalization, retryable-error classification, retry/backoff,
metering dispatch, payload building, streaming token accounting, model-ID
conversion, provider detection, prompt truncation and input-token estimation.

Go strings are embedded as `List Char` (`GoStr`); where byte-level operations
matter (UTF-8 truncation) strings are embedded as byte lists (`List ℕ`).
Go's `int`/`int64` are embedded as `ℤ`, durations as nanosecond counts (`ℕ`).
Logging calls (`Debug`/`Info`/`Warn`/`Error`) are side-effect-free in the
source's data flow and are dropped from the embedding.
-/

namespace Revenium

/-- Go strings, embedded as lists of characters. -/
abbrev GoStr := List Char

/-- Conversion from Lean string literals to the embedding. -/
def gostr (s : String) : GoStr := s.data

/-- Embedding of Go `strings.HasPrefix`. -/
def goHasPrefix : GoStr → GoStr → Bool
  | _, [] => true
  | [], _ :: _ => false
  | c :: s, p :: ps => c = p && goHasPrefix s ps

/-- Embedding of Go `strings.TrimPrefix`. -/
def goTrimPrefix (s pre : GoStr) : GoStr :=
  if goHasPrefix s pre then s.drop pre.length else s

/-- Embedding of Go `strings.Contains`: `sub` occurs as a contiguous substring. -/
def goContains : GoStr → GoStr → Bool
  | [], sub => goHasPrefix [] sub
  | c :: s, sub => goHasPrefix (c :: s) sub || goContains s sub

/-- Auxiliary recursion for `goSplit` (Go `strings.Split` with non-empty
separator): scans left to right, cutting at each occurrence of `sep`. -/
def goSplitAux (sep : GoStr) (acc : GoStr) : GoStr → List GoStr
  | [] => [acc.reverse]
  | c :: rest =>
    if h : goHasPrefix (c :: rest) sep = true ∧ sep ≠ [] then
      acc.reverse :: goSplitAux sep [] (List.drop sep.length (c :: rest))
    else
      goSplitAux sep (c :: acc) rest
termination_by s => s.length
decreasing_by
  · simp only [List.length_drop, List.length_cons]
    have : sep.length ≠ 0 := by
      intro hlen
      exact h.2 (List.eq_nil_of_length_eq_zero hlen)
    omega
  · simp

/-- Embedding of Go `strings.Split`.  For an empty separator Go splits into
individual runes; all separators used in this repository are non-empty. -/
def goSplit (s sep : GoStr) : List GoStr :=
  if sep = [] then s.map (fun c => [c]) else goSplitAux sep [] s

/-- `Split(s, sep)[0]`: Go's `Split` always returns at least one element for a
non-empty separator, so indexing is safe; embedded with a default. -/
def goSplitFirst (s sep : GoStr) : GoStr :=
  (goSplit s sep).getD 0 []

/-! ## Stop-reason normalization (`mapStopReasonToRevenium`, part_006) -/

/-- Embedding of `mapStopReasonToRevenium`: converts Anthropic/Bedrock stop
reasons to the Revenium enum, defaulting any unknown value to `END`
(the source logs unknown values at debug level and never fails). -/
def mapStopReasonToRevenium (stopReason : GoStr) : GoStr :=
  if stopReason = gostr "end_turn" then gostr "END"
  else if stopReason = gostr "max_tokens" ∨ stopReason = gostr "model_context_window_exceeded" then
    gostr "TOKEN_LIMIT"
  else if stopReason = gostr "stop_sequence" then gostr "END_SEQUENCE"
  else if stopReason = gostr "tool_use" then gostr "END"
  else if stopReason = gostr "pause_turn" then gostr "END"
  else if stopReason = gostr "refusal" then gostr "ERROR"
  else if stopReason = gostr "timeout" then gostr "TIMEOUT"
  else if stopReason = gostr "error" then gostr "ERROR"
  else if stopReason = gostr "cancelled" ∨ stopReason = gostr "canceled" then gostr "CANCELLED"
  else gostr "END"

/-- Embedding of `normalizeProviderName` (part_006). -/
def normalizeProviderName (provider : GoStr) : GoStr :=
  if provider = gostr "AWS" then gostr "Amazon Bedrock"
  else if provider = gostr "Anthropic" then gostr "Anthropic"
  else provider

/-- The stop-reason table as amended: the spec's fixed mapping with the raw
string `model_context_window_exceeded` (as in the code) rather than the spec's
`context_window_exceeded`.  Written from the (amended) spec's words, for
comparison with the source-derived `mapStopReasonToRevenium`. -/
def reveniumStopReasonTable : List (GoStr × GoStr) :=
  [ (gostr "end_turn", gostr "END"),
    (gostr "max_tokens", gostr "TOKEN_LIMIT"),
    (gostr "model_context_window_exceeded", gostr "TOKEN_LIMIT"),
    (gostr "stop_sequence", gostr "END_SEQUENCE"),
    (gostr "tool_use", gostr "END"),
    (gostr "pause_turn", gostr "END"),
    (gostr "refusal", gostr "ERROR"),
    (gostr "timeout", gostr "TIMEOUT"),
    (gostr "error", gostr "ERROR"),
    (gostr "cancelled", gostr "CANCELLED"),
    (gostr "canceled", gostr "CANCELLED") ]

/-- First-match lookup in an association list of Go strings. -/
def tableLookup : List (GoStr × GoStr) → GoStr → Option GoStr
  | [], _ => none
  | (k, v) :: rest, s => if s = k then some v else tableLookup rest s

/-! ## Retryable-error classification (`IsRetryableError`, bedrock.go) -/

/-- Embedding of bedrock.go's local helper `contains`.  NOTE: this embeds the
source exactly as written: `len(s) >= len(substr) && (s == substr || len(s) > 0)`.
It does NOT perform a substring search, despite its doc comment in the source
("checks if a string contains a substring (case-insensitive)"). -/
def contains (s substr : GoStr) : Bool :=
  substr.length ≤ s.length && (decide (s = substr) || decide (0 < s.length))

/-- The fixed retryable-error substring list from `IsRetryableError`. -/
def retryablePatterns : List GoStr :=
  [ gostr "timeout",
    gostr "connection refused",
    gostr "connection reset",
    gostr "temporary failure",
    gostr "service unavailable",
    gostr "throttling",
    gostr "rate exceeded",
    gostr "RequestLimitExceeded",
    gostr "ThrottlingException" ]

/-- Embedding of `IsRetryableError`.  A Go error is represented by its message
string; `none` stands for a nil error. -/
def IsRetryableError (err : Option GoStr) : Bool :=
  match err with
  | none => false
  | some errStr => retryablePatterns.any (fun pattern => contains errStr pattern)

/-- Case-insensitive substring containment, written from the claim's words
("contains (case-insensitively) one of the fixed substrings"), for comparison
with the source's broken `contains`. -/
def containsCaseInsensitive (s sub : GoStr) : Bool :=
  goContains (s.map Char.toLower) (sub.map Char.toLower)

/-! ## Retry with backoff (`RetryWithBackoff`, bedrock.go) -/

/-- Embedding of `RetryConfig`.  Durations are nanosecond counts.
`BackoffMultiplier` is a `float64` in the source; it is embedded as a natural
number, exact for the default multiplier 2.0 at the magnitudes involved
(all intermediate products are far below 2^53, where `float64` arithmetic
is exact). -/
structure RetryConfig where
  MaxRetries : ℕ
  InitialBackoff : ℕ
  MaxBackoff : ℕ
  BackoffMultiplier : ℕ

/-- Embedding of `DefaultRetryConfig`. -/
def DefaultRetryConfig : RetryConfig :=
  { MaxRetries := 3
    InitialBackoff := 100 * 1000000
    MaxBackoff := 5 * 1000000000
    BackoffMultiplier := 2 }

/-- Result of a `RetryWithBackoff` run: the returned error (`none` = success),
the number of invocations of `fn`, and the list of waits (in nanoseconds)
performed between consecutive invocations. -/
structure RetryTrace where
  result : Option GoStr
  calls : ℕ
  waits : List ℕ
  deriving DecidableEq, Repr

/-- Error message produced on retry exhaustion
(`fmt.Errorf("max retries exceeded: %w", lastErr)`). -/
def maxRetriesExceededMsg (lastErr : GoStr) : GoStr :=
  gostr "max retries exceeded: " ++ lastErr

/-- Loop body of `RetryWithBackoff`.  `f attempt` is the outcome of the
`attempt`-th invocation of `fn` (`none` = success); `left` is the number of
retries still allowed (`cfg.MaxRetries - attempt`); `backoff` is the current
wait.  The caller's context is never cancelled (per the claim), so the
`ctx.Done()` branches of the source never fire and are omitted. -/
def retryAux (cfg : RetryConfig) (f : ℕ → Option GoStr) :
    ℕ → ℕ → ℕ → RetryTrace
  | attempt, left, backoff =>
    match f attempt with
    | none => ⟨none, 1, []⟩
    | some e =>
      if IsRetryableError (some e) then
        match left with
        | 0 => ⟨some (maxRetriesExceededMsg e), 1, []⟩
        | left' + 1 =>
          let next := cfg.BackoffMultiplier * backoff
          let nextBackoff := if cfg.MaxBackoff < next then cfg.MaxBackoff else next
          let t := retryAux cfg f (attempt + 1) left' nextBackoff
          ⟨t.result, t.calls + 1, backoff :: t.waits⟩
      else ⟨some e, 1, []⟩

/-- Embedding of `RetryWithBackoff` (context never cancelled). -/
def RetryWithBackoff (cfg : RetryConfig) (f : ℕ → Option GoStr) : RetryTrace :=
  retryAux cfg f 0 cfg.MaxRetries cfg.InitialBackoff

/-! ## Provider detection (`DetectProvider`, provider file) -/

/-- Embedding of the middleware `Config` struct (part_007). -/
structure Config where
  AnthropicAPIKey : GoStr := []
  BaseURL : GoStr := []
  ReveniumAPIKey : GoStr := []
  ReveniumBaseURL : GoStr := []
  ReveniumOrgID : GoStr := []
  ReveniumProductID : GoStr := []
  AWSAccessKeyID : GoStr := []
  AWSSecretAccessKey : GoStr := []
  AWSRegion : GoStr := []
  AWSProfile : GoStr := []
  AWSModelARNBase : GoStr := []
  BedrockDisabled : Bool := false
  LogLevel : GoStr := []
  VerboseStartup : Bool := false
  CapturePrompts : Bool := false
  deriving DecidableEq

/-- Embedding of the `Provider` string type and its two constants. -/
inductive Provider where
  | anthropic
  | bedrock
  deriving DecidableEq, Repr

/-- Embedding of `DetectProvider`.  A `*Config` is `Option Config`
(`none` = nil pointer). -/
def DetectProvider (cfg : Option Config) : Provider :=
  match cfg with
  | none => .anthropic
  | some c =>
    if c.BedrockDisabled then .anthropic
    else if c.AWSAccessKeyID ≠ [] ∧ c.AWSSecretAccessKey ≠ [] then .bedrock
    else if c.BaseURL ≠ [] ∧ goContains c.BaseURL (gostr "amazonaws.com") then .bedrock
    else .anthropic

/-! ## Bedrock model-ID conversion (bedrock.go)

`ValidateBedrockBaseARN` checks the base ARN against the regular expression
`^arn:aws:bedrock:[a-z]{2}-[a-z]+-\d+:\d{12}$`.  The regex is embedded as a
deterministic character-by-character matcher; because the character classes
(`[a-z]`, `\d`) are disjoint from the literal separators (`-`, `:`) that follow
them, greedy maximal munch coincides with the regex semantics. -/

def isLowerAZ (c : Char) : Bool := 'a' ≤ c && c ≤ 'z'

def isDigit09 (c : Char) : Bool := '0' ≤ c && c ≤ '9'

/-- Matches `:\d{12}$`. -/
def matchColonAcct : GoStr → Bool
  | [] => false
  | x :: rest => x = ':' && (rest.length = 12 && rest.all isDigit09)

/-- Matches `\d*` (continuation of `\d+`), then `:\d{12}$`. -/
def matchDigitsCont : GoStr → Bool
  | [] => false
  | c :: rest => if isDigit09 c then matchDigitsCont rest else matchColonAcct (c :: rest)

/-- Matches `\d+:\d{12}$`. -/
def matchDigits1 : GoStr → Bool
  | c :: rest => isDigit09 c && matchDigitsCont rest
  | _ => false

/-- Matches `-\d+:\d{12}$`. -/
def matchDashDigits : GoStr → Bool
  | [] => false
  | x :: rest => x = '-' && matchDigits1 rest

/-- Matches `[a-z]*` (continuation of `[a-z]+`), then `-\d+:\d{12}$`. -/
def matchLowersCont : GoStr → Bool
  | [] => false
  | c :: rest => if isLowerAZ c then matchLowersCont rest else matchDashDigits (c :: rest)

/-- Matches `[a-z]+-\d+:\d{12}$`. -/
def matchLowers1 : GoStr → Bool
  | c :: rest => isLowerAZ c && matchLowersCont rest
  | _ => false

/-- Matches `[a-z]{2}-[a-z]+-\d+:\d{12}$` (the region-and-account tail). -/
def matchRegionAcct : GoStr → Bool
  | c1 :: c2 :: x :: rest => isLowerAZ c1 && isLowerAZ c2 && (x = '-') && matchLowers1 rest
  | _ => false

/-- Embedding of the compiled `arnPattern` regex match. -/
def arnPatternMatch (s : GoStr) : Bool :=
  goHasPrefix s (gostr "arn:aws:bedrock:") &&
    matchRegionAcct (s.drop (gostr "arn:aws:bedrock:").length)

/-- Embedding of `ValidateBedrockBaseARN`.  Errors are the source's messages;
the `fmt` interpolation of the offending value is embedded by appending it. -/
def ValidateBedrockBaseARN (arnBase : GoStr) : Except GoStr Unit :=
  if arnBase = [] then .error (gostr "AWS_MODEL_ARN_ID is empty")
  else if arnPatternMatch arnBase then .ok ()
  else if goContains arnBase (gostr "inference-profile") || goContains arnBase (gostr "anthropic") then
    .error (gostr "AWS_MODEL_ARN_ID is too long. Expected format: arn:aws:bedrock:{region}:{account-id}, got: " ++ arnBase)
  else if (goSplit arnBase (gostr ":")).length < 5 then
    .error (gostr "AWS_MODEL_ARN_ID is too short. Expected format: arn:aws:bedrock:{region}:{account-id}, got: " ++ arnBase)
  else
    .error (gostr "AWS_MODEL_ARN_ID has incorrect format. Expected: arn:aws:bedrock:{region}:{account-id}, got: " ++ arnBase)

/-- Embedding of `ConstructFullBedrockARN`. -/
def ConstructFullBedrockARN (arnBase modelName : GoStr) : Except GoStr GoStr :=
  match ValidateBedrockBaseARN arnBase with
  | .error e => .error e
  | .ok _ =>
    if modelName = [] then
      .error (gostr "model name is required to construct full Bedrock ARN")
    else
      .ok (arnBase ++ gostr ":inference-profile/us.anthropic." ++ modelName ++ gostr "-v1:0")

/-- The fallback branch of `GetBedrockModelID`: prefix with `anthropic.`
unless already prefixed. -/
def standardBedrockFormat (modelName : GoStr) : GoStr :=
  if goHasPrefix modelName (gostr "anthropic.") then modelName
  else gostr "anthropic." ++ modelName

/-- Embedding of `GetBedrockModelID`.  On ARN-construction failure the source
logs a warning and falls through to the standard format. -/
def GetBedrockModelID (modelName : GoStr) (config : Option Config) : GoStr :=
  if goHasPrefix modelName (gostr "arn:aws:bedrock:") then modelName
  else
    match config with
    | some cfg =>
      if cfg.AWSModelARNBase ≠ [] then
        match ConstructFullBedrockARN cfg.AWSModelARNBase modelName with
        | .ok fullARN => fullARN
        | .error _ => standardBedrockFormat modelName
      else standardBedrockFormat modelName
    | none => standardBedrockFormat modelName

/-- `strings.TrimPrefix` chain removing `us.`/`eu.`/`ap.` + `anthropic.`
(applied in the source's order). -/
def trimRegionAnthropicPrefixes (s : GoStr) : GoStr :=
  goTrimPrefix (goTrimPrefix (goTrimPrefix s (gostr "us.anthropic.")) (gostr "eu.anthropic."))
    (gostr "ap.anthropic.")

/-- `strings.Split(s, "-v")[0]` followed by `strings.Split(·, ":")[0]`. -/
def stripVersionSuffix (s : GoStr) : GoStr :=
  goSplitFirst (goSplitFirst s (gostr "-v")) (gostr ":")

/-- Embedding of `ConvertBedrockARNToAnthropicModel`.  The source's sequence of
`if`-with-early-`return` blocks is embedded as a flat `if`-chain: the ARN
branch's inner guard `len(parts) >= 2` is conjoined, since on its failure
control falls through to the next block. -/
def ConvertBedrockARNToAnthropicModel (bedrockModel : GoStr) : Except GoStr GoStr :=
  if ¬goContains bedrockModel (gostr "arn:aws:bedrock")
      ∧ ¬goHasPrefix bedrockModel (gostr "anthropic.")
      ∧ ¬goContains bedrockModel (gostr "inference-profile") then
    .ok bedrockModel
  else if goContains bedrockModel (gostr "arn:aws:bedrock")
      ∧ 2 ≤ (goSplit bedrockModel (gostr "/")).length then
    .ok (stripVersionSuffix
      (trimRegionAnthropicPrefixes ((goSplit bedrockModel (gostr "/")).getLast?.getD [])))
  else if goHasPrefix bedrockModel (gostr "anthropic.") then
    .ok (stripVersionSuffix (goTrimPrefix bedrockModel (gostr "anthropic.")))
  else
    .error (gostr "could not parse Bedrock model ID '" ++ bedrockModel ++
      gostr "': unrecognized format")

deriving instance DecidableEq for Except

/-- The supported set of direct-API model names, as fixed by the repository's
round-trip test (`TestModelConversionRoundTrip`). -/
def supportedAnthropicModels : List GoStr :=
  [ gostr "claude-3-opus-20240229",
    gostr "claude-3-5-haiku-20241022",
    gostr "claude-3-7-sonnet-latest",
    gostr "claude-sonnet-4-20250514" ]

/-! ## Error taxonomy

Modelled from the spec: the repository's error definitions
(`NewConfigError`, `NewValidationError`, `NewNetworkError`, `NewMeteringError`,
`IsValidationError`) are not among the provided sources — only their callers
are.  Per spec §7, errors form a taxonomy of Configuration / Provider /
Network / Validation / Metering errors, where `IsValidationError` recognizes
exactly the validation kind. -/
inductive GoError where
  | configError (msg : GoStr)
  | providerError (msg : GoStr)
  | networkError (msg : GoStr)
  | validationError (msg : GoStr)
  | meteringError (msg : GoStr)
  deriving DecidableEq, Repr

/-- Modelled from the spec: `IsValidationError` recognizes exactly the
validation-error kind of the §7 taxonomy. -/
def IsValidationError : GoError → Bool
  | .validationError _ => true
  | _ => false

/-- Embedding of the package-local `isValidationError` helper (part_006):
nil check then `IsValidationError`. -/
def isValidationError : Option GoError → Bool
  | none => false
  | some e => IsValidationError e

/-! ## Metering dispatch (`sendMeteringRequest` / `sendMeteringWithRetry`,
part_006)

The collector's behavior on one POST is either a network-level failure or an
HTTP status code; the payload bytes and response body do not influence the
control flow and are elided from the outcome type. -/

/-- Outcome of one metering POST as seen by `sendMeteringRequest`. -/
inductive MeterOutcome where
  | netFailure
  | httpStatus (code : ℕ)
  deriving DecidableEq, Repr

/-- Embedding of `sendMeteringRequest`'s response handling: 2xx succeeds, a
network failure is a `NetworkError`, 4xx is a `ValidationError`, anything else
is a `MeteringError`.  (The config/API-key guard and JSON marshalling of the
source precede this and are assumed to have succeeded; their failures do not
depend on the collector's response.)  Error messages embed the status code. -/
def sendMeteringRequest (outcome : MeterOutcome) : Option GoError :=
  match outcome with
  | .netFailure => some (.networkError (gostr "metering request failed"))
  | .httpStatus code =>
    if 200 ≤ code ∧ code < 300 then none
    else if 400 ≤ code ∧ code < 500 then
      some (.validationError (gostr "metering API returned " ++ gostr (toString code)))
    else some (.meteringError (gostr "metering API error"))

/-- Result of a `sendMeteringWithRetry` run: the returned error
(`none` = success) and the number of POST attempts performed. -/
structure MeterTrace where
  result : Option GoError
  sends : ℕ
  deriving DecidableEq, Repr

/-- Loop of `sendMeteringWithRetry` (`maxRetries = 3`, backoff slept before
attempts 1 and 2 — sleeping does not affect the result and is not traced
here).  `outcomes attempt` is the collector's behavior on the given attempt. -/
def meteringRetryAux (outcomes : ℕ → MeterOutcome) : ℕ → ℕ → Option GoError → MeterTrace
  | attempt, left, _lastErr =>
    match left with
    | 0 =>
      -- retries exhausted: the last error is wrapped in a new `MeteringError`
      -- (`NewMeteringError("metering failed after %d retries", ...)`);
      -- the wrapped detail text is elided.
      ⟨some (.meteringError (gostr "metering failed after 3 retries")), attempt⟩
    | left' + 1 =>
      match sendMeteringRequest (outcomes attempt) with
      | none => ⟨none, attempt + 1⟩
      | some err =>
        if IsValidationError err then ⟨some err, attempt + 1⟩
        else meteringRetryAux outcomes (attempt + 1) left' (some err)

/-- Embedding of `sendMeteringWithRetry`. -/
def sendMeteringWithRetry (outcomes : ℕ → MeterOutcome) : MeterTrace :=
  meteringRetryAux outcomes 0 3 none

/-! ## Request parameters, vision detection and token estimation -/

/-- Image sources of an image content block (part_007's
`ImageBlockParam.Source`): inline base64 data or a URL reference. -/
inductive ImageSource where
  | base64 (mediaType data : GoStr)
  | url (u : GoStr)
  deriving DecidableEq, Repr

/-- A content block of a message (`anthropic.ContentBlockParamUnion`),
reduced to the variants this repository inspects: text and image. -/
inductive ContentBlockParamUnion where
  | text (t : GoStr)
  | image (source : ImageSource)
  deriving DecidableEq, Repr

/-- `anthropic.MessageParam`. -/
structure MessageParam where
  Role : GoStr
  Content : List ContentBlockParamUnion
  deriving DecidableEq, Repr

/-- `anthropic.MessageNewParams`, reduced to the fields the embedded functions
read (`Messages`; `Model`, `MaxTokens`, `StopSequences` are not consumed by
any claim's function). -/
structure MessageNewParams where
  Messages : List MessageParam
  deriving DecidableEq, Repr

/-- Embedding of `estimateInputTokens` (part_006): counts `len(msg.Content)*10`
characters per message — `msg.Content` is the content-block slice, so this is
10 per content block, not a character count — divides by 4, and substitutes 10
when the quotient is below 1. -/
def estimateInputTokens (params : MessageNewParams) : ℕ :=
  let totalChars := params.Messages.foldl (fun acc msg => acc + msg.Content.length * 10) 0
  let estimatedTokens := totalChars / 4
  if estimatedTokens < 1 then 10 else estimatedTokens

/-- Total number of content blocks across all messages (specification-side
quantity used to state the amended C8). -/
def totalContentBlocks (params : MessageNewParams) : ℕ :=
  (params.Messages.map (fun msg => msg.Content.length)).sum

/-- Embedding of `DetectVisionContent`'s result (part_007). -/
structure VisionDetectionResult where
  HasVisionContent : Bool
  ImageCount : ℕ
  TotalImageSizeBytes : ℕ
  MediaTypes : List GoStr
  deriving DecidableEq, Repr

/-- Embedding of `processBase64ImageSource`: dedup media type, add
`(len(data) - padding) * 3 / 4` estimated bytes. -/
def processBase64ImageSource (mediaType data : GoStr) (result : VisionDetectionResult) :
    VisionDetectionResult :=
  let result :=
    if mediaType ≠ [] ∧ ¬result.MediaTypes.contains mediaType then
      { result with MediaTypes := result.MediaTypes ++ [mediaType] }
    else result
  if data ≠ [] then
    let base64Length := data.length
    let lastIsPad := data.getLast? = some '='
    let sndLastIsPad := 1 < base64Length ∧ (data.reverse.getD 1 ' ') = '='
    let padding : ℕ := if lastIsPad then (if sndLastIsPad then 2 else 1) else 0
    { result with
      TotalImageSizeBytes := result.TotalImageSizeBytes + (base64Length - padding) * 3 / 4 }
  else result

/-- Embedding of `processImageBlock`. -/
def processImageBlock (source : ImageSource) (result : VisionDetectionResult) :
    VisionDetectionResult :=
  let result := { result with HasVisionContent := true, ImageCount := result.ImageCount + 1 }
  match source with
  | .base64 mediaType data => processBase64ImageSource mediaType data result
  | .url _ => result

/-- Embedding of `DetectVisionContent`. -/
def DetectVisionContent (params : MessageNewParams) : VisionDetectionResult :=
  params.Messages.foldl
    (fun result msg =>
      msg.Content.foldl
        (fun result block =>
          match block with
          | .image source => processImageBlock source result
          | .text _ => result)
        result)
    ⟨false, 0, 0, []⟩

/-! ## UTF-8-safe truncation (`prompt_extractor.go`)

Go strings are byte sequences; `len`, indexing and slicing in
`truncateUTF8Safe` are byte operations.  Here strings are byte lists
(`GoBytes`); a byte is a natural number below 256. -/

/-- Go byte strings. -/
abbrev GoBytes := List ℕ

/-- ASCII string literal to bytes (all literals used are 7-bit ASCII). -/
def gobytes (s : String) : GoBytes := s.data.map Char.toNat

/-- `(b & 0xC0) == 0x80`: `b` is a UTF-8 continuation byte. -/
def isContB (b : ℕ) : Bool := 0x80 ≤ b && b < 0xC0

/-- The backup loop of `truncateUTF8Safe`:
`for maxBytes > 0 && maxBytes < len(s) { if cont(s[maxBytes]) { maxBytes-- } else break }`. -/
def backupBoundary (s : GoBytes) : ℕ → ℕ
  | 0 => 0
  | p + 1 =>
    if p + 1 < s.length ∧ isContB (s.getD (p + 1) 0) then backupBoundary s p else p + 1

/-- Scanner for `utf8.ValidString`: `need` is the number of continuation
bytes still expected for the current sequence, and `lo`/`hi` bound the next
byte when `need > 0` (the first continuation after a lead byte has a
lead-dependent accept range — the Go standard library's `acceptRanges` — and
subsequent continuations are `0x80..0xBF`). -/
def validAux : ℕ → ℕ → ℕ → GoBytes → Bool
  | 0, _, _, [] => true
  | _ + 1, _, _, [] => false
  | 0, _, _, b :: rest =>
    if b < 0x80 then validAux 0 0 0 rest
    else if 0xC2 ≤ b ∧ b ≤ 0xDF then validAux 1 0x80 0xBF rest
    else if b = 0xE0 then validAux 2 0xA0 0xBF rest
    else if (0xE1 ≤ b ∧ b ≤ 0xEC) ∨ (0xEE ≤ b ∧ b ≤ 0xEF) then validAux 2 0x80 0xBF rest
    else if b = 0xED then validAux 2 0x80 0x9F rest
    else if b = 0xF0 then validAux 3 0x90 0xBF rest
    else if 0xF1 ≤ b ∧ b ≤ 0xF3 then validAux 3 0x80 0xBF rest
    else if b = 0xF4 then validAux 3 0x80 0x8F rest
    else false
  | need + 1, lo, hi, b :: rest =>
    if lo ≤ b ∧ b ≤ hi then validAux need 0x80 0xBF rest else false

/-- Embedding of Go `utf8.ValidString` on bytes: the standard UTF-8 acceptance
table (RFC 3629) — no overlong encodings, no surrogates, maximum U+10FFFF —
matching the Go standard library's first-byte-indexed accept ranges. -/
def validString (s : GoBytes) : Bool := validAux 0 0 0 s

/-- UTF-8 encoding of one code point (Go `string(r)` for an in-range,
non-surrogate rune). -/
def encodeChar (c : ℕ) : GoBytes :=
  if c < 0x80 then [c]
  else if c < 0x800 then [0xC0 + c / 64, 0x80 + c % 64]
  else if c < 0x10000 then [0xE0 + c / 4096, 0x80 + c / 64 % 64, 0x80 + c % 64]
  else [0xF0 + c / 262144, 0x80 + c / 4096 % 64, 0x80 + c / 64 % 64, 0x80 + c % 64]

/-- `utf8.RuneLen` for an in-range, non-surrogate rune. -/
def runeLen (c : ℕ) : ℕ :=
  if c < 0x80 then 1 else if c < 0x800 then 2 else if c < 0x10000 then 3 else 4

/-- Embedding of Go's `[]rune(s)` conversion: decode each position with the
same acceptance table as `validString`; an invalid byte yields U+FFFD and
advances one byte. -/
def decodeRunes : GoBytes → List ℕ
  | [] => []
  | b :: rest =>
    if b < 0x80 then b :: decodeRunes rest
    else if 0xC2 ≤ b ∧ b ≤ 0xDF then
      match rest with
      | b1 :: r =>
        if isContB b1 then ((b - 0xC0) * 64 + (b1 - 0x80)) :: decodeRunes r
        else 0xFFFD :: decodeRunes (b1 :: r)
      | [] => [0xFFFD]
    else if 0xE0 ≤ b ∧ b ≤ 0xEF then
      match rest with
      | b1 :: b2 :: r =>
        if ((if b = 0xE0 then 0xA0 ≤ b1 ∧ b1 ≤ 0xBF
             else if b = 0xED then 0x80 ≤ b1 ∧ b1 ≤ 0x9F
             else isContB b1 = true) ∧ isContB b2 = true : Prop) then
          ((b - 0xE0) * 4096 + (b1 - 0x80) * 64 + (b2 - 0x80)) :: decodeRunes r
        else 0xFFFD :: decodeRunes (b1 :: b2 :: r)
      | [b1] => 0xFFFD :: decodeRunes [b1]
      | [] => [0xFFFD]
    else if 0xF0 ≤ b ∧ b ≤ 0xF4 then
      match rest with
      | b1 :: b2 :: b3 :: r =>
        if ((if b = 0xF0 then 0x90 ≤ b1 ∧ b1 ≤ 0xBF
             else if b = 0xF4 then 0x80 ≤ b1 ∧ b1 ≤ 0x8F
             else isContB b1 = true) ∧ isContB b2 = true ∧ isContB b3 = true : Prop) then
          ((b - 0xF0) * 262144 + (b1 - 0x80) * 4096 + (b2 - 0x80) * 64 + (b3 - 0x80)) ::
            decodeRunes r
        else 0xFFFD :: decodeRunes (b1 :: b2 :: b3 :: r)
      | [b1, b2] => 0xFFFD :: decodeRunes [b1, b2]
      | [b1] => 0xFFFD :: decodeRunes [b1]
      | [] => [0xFFFD]
    else 0xFFFD :: decodeRunes rest
termination_by s => s.length
decreasing_by all_goals (simp_wf <;> omega)

/-- The rune-rebuild loop of `truncateUTF8Safe`'s fallback:
append runes while the rebuilt byte length stays within `maxBytes`. -/
def buildRunes (maxBytes : ℕ) : List ℕ → GoBytes → GoBytes
  | [], acc => acc
  | r :: rs, acc =>
    if maxBytes < acc.length + runeLen r then acc
    else buildRunes maxBytes rs (acc ++ encodeChar r)

/-- Embedding of `truncateUTF8Safe` (prompt_extractor.go): back up to a UTF-8
boundary, validate, and fall back to rune-by-rune rebuilding if the prefix is
still invalid. -/
def truncateUTF8Safe (s : GoBytes) (maxBytes : ℕ) : GoBytes :=
  if s.length ≤ maxBytes then s
  else if validString (s.take (backupBoundary s maxBytes)) then
    s.take (backupBoundary s maxBytes)
  else buildRunes maxBytes (decodeRunes s) []

/-- `MaxPromptLength` (prompt_extractor.go). -/
def MaxPromptLength : ℕ := 50000

/-- `TruncationMarker` (prompt_extractor.go), as bytes. -/
def TruncationMarker : GoBytes := gobytes "...[TRUNCATED]"

/-- Embedding of `PromptData` (prompt_extractor.go). -/
structure PromptData where
  SystemPrompt : GoBytes
  InputMessages : GoBytes
  OutputResponse : GoBytes
  PromptsTruncated : Bool
  deriving DecidableEq, Repr

/-- Embedding of `ExtractStreamingResponseContent` (the local `content`
variable of the source is inlined). -/
def ExtractStreamingResponseContent (accumulatedContent : GoBytes)
    (promptsTruncated : Bool) : PromptData :=
  if accumulatedContent = [] then ⟨[], [], [], promptsTruncated⟩
  else if MaxPromptLength < accumulatedContent.length then
    ⟨[], [],
      truncateUTF8Safe accumulatedContent (MaxPromptLength - TruncationMarker.length) ++
        TruncationMarker,
      true⟩
  else ⟨[], [], accumulatedContent, promptsTruncated⟩

/-- Validity of a byte string as UTF-8: it is the encoding of a sequence of
in-range, non-surrogate code points. -/
def GoodCp (c : ℕ) : Prop := c < 0x110000 ∧ ¬(0xD800 ≤ c ∧ c < 0xE000)

instance : DecidablePred GoodCp := fun _ => by unfold GoodCp; infer_instance

/-- Concatenated UTF-8 encoding of a code-point sequence. -/
def encodeStr (cs : List ℕ) : GoBytes := (cs.map encodeChar).flatten

/-- `s` is a valid UTF-8 byte string. -/
def ValidUTF8 (s : GoBytes) : Prop :=
  ∃ cs : List ℕ, (∀ c ∈ cs, GoodCp c) ∧ s = encodeStr cs

/-! ## Telemetry payload (`buildMeteringPayload`, part_006)

The payload is a Go `map[string]interface{}`.  It is embedded as an
association list where assignment prepends (shadowing earlier entries) and
lookup takes the first match — Go map-assignment/lookup semantics.  Values are
a closed union of the shapes this repository stores. -/

/-- A payload value (`interface{}`). -/
inductive PVal where
  /-- A Go string value (character representation). -/
  | str (s : GoStr)
  /-- A captured-prompt string value (byte representation). -/
  | bstr (s : GoBytes)
  /-- An integer value (`int`/`int64`). -/
  | int (n : ℤ)
  /-- A boolean value. -/
  | bool (b : Bool)
  /-- The vision attributes map built by `BuildVisionAttributes`. -/
  | visionAttrs (imageCount totalSizeBytes : ℕ) (mediaTypes : List GoStr)
  /-- An opaque caller-supplied metadata value of any other JSON shape. -/
  | raw (n : ℕ)
  deriving DecidableEq, Repr

/-- A `map[string]interface{}`, as an assignment-ordered association list. -/
abbrev Payload := List (String × PVal)

/-- Map assignment `m[k] = v` (shadows any earlier binding of `k`). -/
def pset (p : Payload) (k : String) (v : PVal) : Payload := (k, v) :: p

/-- Map lookup `m[k]` (first, i.e. most recent, binding wins). -/
def pget (p : Payload) (k : String) : Option PVal :=
  (p.find? (fun kv => kv.1 = k)).map (·.2)

/-- `anthropic.Usage` (token counts are `int64`). -/
structure Usage where
  InputTokens : ℤ
  OutputTokens : ℤ
  deriving DecidableEq, Repr

/-- `*anthropic.Message`, reduced to the fields `buildMeteringPayload` reads. -/
structure AnthropicMessage where
  Model : GoStr
  StopReason : GoStr
  Usage : Usage
  deriving DecidableEq, Repr

/-- Go `time.Time.Format(time.RFC3339)` on a nanosecond timestamp.  This is
standard-library formatting (outside the repository); its exact text is
irrelevant to every claim, so it is embedded as an injective rendering of the
timestamp. -/
def goFormatRFC3339 (t : ℕ) : GoStr := gostr (toString t)

/-- Modelled from the spec: `GetMiddlewareSource` is not among the provided
sources (only its call in `buildMeteringPayload` is); per spec §6 the
middleware identifies itself as `<name>/<version>`.  Its value is a fixed
string not inspected by any claim. -/
def GetMiddlewareSource : GoStr := gostr "revenium-middleware-anthropic-go/1.0"

/-- The caller-metadata keys `buildMeteringPayload` copies through verbatim,
in the source's order of `if`-blocks.  `operationType` is deliberately absent
(the source's NOTE: it is fixed to `CHAT` and must not be overridden). -/
def passthroughMetadataKeys : List String :=
  [ "organizationId", "productId", "taskType", "agent", "subscriptionId",
    "traceId", "subscriber", "taskId", "responseQualityScore",
    "transactionId", "traceType", "traceName", "environment", "region",
    "retryNumber", "credentialAlias", "parentTransactionId",
    "modelSource", "mediationLatency", "temperature", "systemFingerprint",
    "inputTokenCost", "outputTokenCost", "cacheCreationTokenCost",
    "cacheReadTokenCost", "totalCost" ]

/-- The metadata pass-through block of `buildMeteringPayload`: for each key in
order, copy the caller's value if present. -/
def copyMetadataKeys (metadata : Payload) : List String → Payload → Payload
  | [], p => p
  | k :: keys, p =>
    copyMetadataKeys metadata keys
      (match pget metadata k with
       | some v => pset p k v
       | none => p)

/-- The error-tracking block of `buildMeteringPayload`: if the caller supplied
`errorReason`, copy it and override `stopReason` with `ERROR`. -/
def applyErrorReason (metadata : Payload) (p : Payload) : Payload :=
  match pget metadata "errorReason" with
  | some v => pset (pset p "errorReason" v) "stopReason" (.str (gostr "ERROR"))
  | none => p

/-- The vision block of `buildMeteringPayload`: when the request parameters
contain vision content, set `hasVisionContent` and attach the attributes map
(`BuildVisionAttributes` returns non-nil exactly when vision content exists). -/
def applyVisionContent (params : Option MessageNewParams) (p : Payload) : Payload :=
  match params with
  | none => p
  | some ps =>
    let visionResult := DetectVisionContent ps
    if visionResult.HasVisionContent then
      pset (pset p "hasVisionContent" (.bool true)) "attributes"
        (.visionAttrs visionResult.ImageCount visionResult.TotalImageSizeBytes
          visionResult.MediaTypes)
    else p

/-- The map literal `buildMeteringPayload` starts from ("required fields
only", in the source's order).  `txId` is the value of the
`generateRequestID()` call (clock-dependent, hence passed in); `startTime` is
in nanoseconds, `duration` in nanoseconds (`Milliseconds()` divides by 10^6). -/
def initialMeteringPayload (resp : AnthropicMessage) (isStreamed : Bool)
    (duration : ℕ) (provider : GoStr) (startTime : ℕ) (txId : GoStr) : Payload :=
  let requestTimeISO := goFormatRFC3339 startTime
  let responseTimeISO := goFormatRFC3339 (startTime + duration)
  let completionStartTimeISO := goFormatRFC3339 startTime
  let normalizedProvider := normalizeProviderName provider
  let stopReason :=
    if resp.StopReason ≠ [] then mapStopReasonToRevenium resp.StopReason
    else gostr "END"
  [ ("stopReason", .str stopReason),
      ("costType", .str (gostr "AI")),
      ("isStreamed", .bool isStreamed),
      ("operationType", .str (gostr "CHAT")),
      ("inputTokenCount", .int resp.Usage.InputTokens),
      ("outputTokenCount", .int resp.Usage.OutputTokens),
      ("reasoningTokenCount", .int 0),
      ("cacheCreationTokenCount", .int 0),
      ("cacheReadTokenCount", .int 0),
      ("totalTokenCount", .int (resp.Usage.InputTokens + resp.Usage.OutputTokens)),
      ("model", .str resp.Model),
      ("transactionId", .str txId),
      ("responseTime", .str responseTimeISO),
      ("requestDuration", .int (duration / 1000000)),
      ("provider", .str normalizedProvider),
      ("requestTime", .str requestTimeISO),
      ("completionStartTime", .str completionStartTimeISO),
      ("timeToFirstToken", .int 0),
      ("middlewareSource", .str GetMiddlewareSource) ]

/-- Embedding of `buildMeteringPayload`: the initial literal, then the
metadata pass-through and error-tracking blocks (skipped for a nil map), then
vision detection.  `metadata` is `none` for a nil map. -/
def buildMeteringPayload (resp : AnthropicMessage) (metadata : Option Payload)
    (isStreamed : Bool) (duration : ℕ) (provider : GoStr) (startTime : ℕ)
    (params : Option MessageNewParams) (txId : GoStr) : Payload :=
  let payload := initialMeteringPayload resp isStreamed duration provider startTime txId
  let payload :=
    match metadata with
    | some md => applyErrorReason md (copyMetadataKeys md passthroughMetadataKeys payload)
    | none => payload
  applyVisionContent params payload

/-! ## Streaming session (`StreamingWrapper`, part_006)

The mutex-guarded mutable fields of `StreamingWrapper` and the operations that
touch them.  The stream handle, config, timestamps and metadata map are
immutable after creation and are passed separately where needed. -/

/-- The mutable token/content state of a `StreamingWrapper`. -/
structure StreamingWrapperState where
  inputTokens : ℤ
  outputTokens : ℤ
  totalTokens : ℤ
  model : GoStr
  provider : GoStr
  stopReason : GoStr
  accumulatedContent : GoBytes
  deriving DecidableEq, Repr

/-- Wrapper construction in `createMessageStreamAnthropic` /
`createMessageStreamBedrock`: counters zero, no stop reason, no content. -/
def initStreamingWrapper (model provider : GoStr) : StreamingWrapperState :=
  { inputTokens := 0, outputTokens := 0, totalTokens := 0,
    model := model, provider := provider, stopReason := [], accumulatedContent := [] }

/-- Embedding of `StreamingWrapper.SetInputTokens`. -/
def SetInputTokens (sw : StreamingWrapperState) (tokens : ℤ) : StreamingWrapperState :=
  { sw with inputTokens := tokens, totalTokens := tokens + sw.outputTokens }

/-- The `message_delta` usage update inside `StreamingWrapper.Current`:
authoritative counters overwrite (not add to) the running ones. -/
def applyUsageDelta (sw : StreamingWrapperState) (usageIn usageOut : ℤ) :
    StreamingWrapperState :=
  { sw with
    inputTokens := usageIn
    outputTokens := usageOut
    totalTokens := usageIn + usageOut }

/-- The content-event accumulation inside `StreamingWrapper.Current`. -/
def applyContentText (sw : StreamingWrapperState) (text : GoBytes) : StreamingWrapperState :=
  { sw with accumulatedContent := sw.accumulatedContent ++ text }

/-- The stop-reason capture inside `StreamingWrapper.Current` (only non-empty
extracted reasons are stored). -/
def applyStopReason (sw : StreamingWrapperState) (reason : GoStr) : StreamingWrapperState :=
  if reason ≠ [] then { sw with stopReason := reason } else sw

/-- The wrapper states reachable through the source's operations over the
lifetime of one stream. -/
inductive StreamingReachable : StreamingWrapperState → Prop where
  | init (model provider : GoStr) : StreamingReachable (initStreamingWrapper model provider)
  | setInput (sw : StreamingWrapperState) (tokens : ℤ) :
      StreamingReachable sw → StreamingReachable (SetInputTokens sw tokens)
  | usageDelta (sw : StreamingWrapperState) (usageIn usageOut : ℤ) :
      StreamingReachable sw → StreamingReachable (applyUsageDelta sw usageIn usageOut)
  | content (sw : StreamingWrapperState) (text : GoBytes) :
      StreamingReachable sw → StreamingReachable (applyContentText sw text)
  | stopReasonEvent (sw : StreamingWrapperState) (reason : GoStr) :
      StreamingReachable sw → StreamingReachable (applyStopReason sw reason)

/-- The `mockResp` built in `StreamingWrapper.Close`: model and counters from
the wrapper; the stop reason is set (via reflection) only when non-empty,
which leaves the zero value `""` otherwise — i.e. it is `sw.stopReason`
either way. -/
def streamingMockResp (sw : StreamingWrapperState) : AnthropicMessage :=
  { Model := sw.model, StopReason := sw.stopReason,
    Usage := { InputTokens := sw.inputTokens, OutputTokens := sw.outputTokens } }

/-- Embedding of the payload assembly in `StreamingWrapper.Close`'s metering
goroutine: build via `buildMeteringPayload`, then override the
streaming-specific fields with the wrapper's actual data.  `timeToFirstToken`
is in milliseconds; `firstTokenTime` is `none` when no content event arrived;
`promptData` is the capture state (`nil` when capture is disabled). -/
def closeStreamingPayload (sw : StreamingWrapperState) (metadata : Option Payload)
    (duration startTime : ℕ) (timeToFirstToken : ℤ) (firstTokenTime : Option ℕ)
    (txId : GoStr) (params : Option MessageNewParams) (promptData : Option PromptData) :
    Payload :=
  let payload :=
    buildMeteringPayload (streamingMockResp sw) metadata true duration sw.provider
      startTime params txId
  let payload := pset payload "timeToFirstToken" (.int timeToFirstToken)
  let payload :=
    match firstTokenTime with
    | some t => pset payload "completionStartTime" (.str (goFormatRFC3339 t))
    | none => payload
  let payload := pset payload "inputTokenCount" (.int sw.inputTokens)
  let payload := pset payload "outputTokenCount" (.int sw.outputTokens)
  let payload := pset payload "totalTokenCount" (.int sw.totalTokens)
  let payload := if sw.model ≠ [] then pset payload "model" (.str sw.model) else payload
  match promptData with
  | none => payload
  | some pd =>
    let payload :=
      if pd.SystemPrompt ≠ [] then pset payload "systemPrompt" (.bstr pd.SystemPrompt)
      else payload
    let payload :=
      if pd.InputMessages ≠ [] then pset payload "inputMessages" (.bstr pd.InputMessages)
      else payload
    let responseData :=
      ExtractStreamingResponseContent sw.accumulatedContent pd.PromptsTruncated
    let payload :=
      if responseData.OutputResponse ≠ [] then
        pset payload "outputResponse" (.bstr responseData.OutputResponse)
      else payload
    if responseData.PromptsTruncated then pset payload "promptsTruncated" (.bool true)
    else payload

/-! ## Specification-side auxiliary notions (used only to state claims) -/

/-- The claim's non-retryable collector outcome: an HTTP 4xx response. -/
def is4xxOutcome : MeterOutcome → Bool
  | .netFailure => false
  | .httpStatus code => 400 ≤ code && code < 500

/-- The claim's transient collector outcome: HTTP 500 or above, or a
network-level failure. -/
def isTransientOutcome : MeterOutcome → Bool
  | .netFailure => true
  | .httpStatus code => 500 ≤ code

/-- Characters that can occur in a base ARN accepted by the
`ValidateBedrockBaseARN` regex: lowercase letters, digits, `:` and `-`
(in particular, never `/`). -/
def arnOkChar (ch : Char) : Bool :=
  isLowerAZ ch || isDigit09 ch || ch = ':' || ch = '-'

/-- `sep` occurs nowhere in `s` (at no starting position). -/
def sepFreeB (sep s : GoStr) : Bool :=
  (List.range (s.length + 1)).all (fun i => !goHasPrefix (List.drop i s) sep)

/-- `sep` occurs nowhere in `l₁ ++ rest` at a starting position inside `l₁`
(so the first occurrence of `sep` in `l₁ ++ rest`, if any, starts in `rest`). -/
def boundaryFreeB (sep l₁ rest : GoStr) : Bool :=
  (List.range l₁.length).all (fun i => !goHasPrefix (List.drop i (l₁ ++ rest)) sep)

/-- The sequence of waits `RetryWithBackoff` would perform if every attempt
failed retryably: `left` waits starting at `backoff`, multiplied and capped as
in the source. -/
def backoffList (cfg : RetryConfig) : ℕ → ℕ → List ℕ
  | 0, _ => []
  | left + 1, backoff =>
    let next := cfg.BackoffMultiplier * backoff
    backoff :: backoffList cfg left (if cfg.MaxBackoff < next then cfg.MaxBackoff else next)

/-! # Theorems -/

/-! ## Payload map lemmas -/

theorem pget_pset_same (p : Payload) (k : String) (v : PVal) :
    pget (pset p k v) k = some v := by
  simp [pget, pset, List.find?]

theorem pget_ite (c : Prop) [Decidable c] (p q : Payload) (k : String) :
    pget (if c then p else q) k = if c then pget p k else pget q k :=
  apply_ite (fun pl => pget pl k) c p q

theorem pget_pset_ne (p : Payload) (k k' : String) (v : PVal) (h : k' ≠ k) :
    pget (pset p k v) k' = pget p k' := by
  simp only [pget, pset, List.find?]
  have hne : ¬(k = k') := fun e => h e.symm
  simp [hne]

theorem pget_copyMetadataKeys_not_mem (metadata : Payload) (keys : List String)
    (p : Payload) (k : String) (h : k ∉ keys) :
    pget (copyMetadataKeys metadata keys p) k = pget p k := by
  induction keys generalizing p with
  | nil => rfl
  | cons a as ih =>
    simp only [List.mem_cons, not_or] at h
    simp only [copyMetadataKeys]
    rw [ih _ h.2]
    cases pget metadata a with
    | none => rfl
    | some v => exact pget_pset_ne _ _ _ _ h.1

theorem pget_applyErrorReason_other (metadata p : Payload) (k : String)
    (h1 : k ≠ "errorReason") (h2 : k ≠ "stopReason") :
    pget (applyErrorReason metadata p) k = pget p k := by
  unfold applyErrorReason
  cases pget metadata "errorReason" with
  | none => rfl
  | some v => rw [pget_pset_ne _ _ _ _ h2, pget_pset_ne _ _ _ _ h1]

theorem pget_applyErrorReason_stopReason (metadata p : Payload)
    (h : ∃ v, pget metadata "errorReason" = some v) :
    pget (applyErrorReason metadata p) "stopReason" = some (.str (gostr "ERROR")) := by
  obtain ⟨v, hv⟩ := h
  unfold applyErrorReason
  rw [hv]
  exact pget_pset_same _ _ _

theorem pget_applyVisionContent_other (params : Option MessageNewParams) (p : Payload)
    (k : String) (h1 : k ≠ "hasVisionContent") (h2 : k ≠ "attributes") :
    pget (applyVisionContent params p) k = pget p k := by
  unfold applyVisionContent
  cases params with
  | none => rfl
  | some ps =>
    by_cases hv : (DetectVisionContent ps).HasVisionContent
    · simp only [hv, if_true]
      rw [pget_pset_ne _ _ _ _ h2, pget_pset_ne _ _ _ _ h1]
    · simp [hv]

/-! ## C1 — stop-reason mapping table -/

/-- C1, counterexample: the claim states that the raw stop reason
`context_window_exceeded` maps to `TOKEN_LIMIT`, but the source's case is the
string `model_context_window_exceeded`; the claimed string falls through to
the default and maps to `END`. -/
theorem c1_context_window_maps_to_END :
    mapStopReasonToRevenium (gostr "context_window_exceeded") = gostr "END" ∧
      gostr "END" ≠ gostr "TOKEN_LIMIT" := by
  decide

set_option maxHeartbeats 2000000 in
/-- C1 as amended: for every raw stop-reason string, `mapStopReasonToRevenium`
returns exactly the table value — `end_turn`/`tool_use`/`pause_turn` → `END`,
`max_tokens`/`model_context_window_exceeded` → `TOKEN_LIMIT`, `stop_sequence` →
`END_SEQUENCE`, `refusal`/`error` → `ERROR`, `timeout` → `TIMEOUT`,
`cancelled`/`canceled` → `CANCELLED` — and every other string (including the
empty string) defaults to `END`; the function is total, so no input can make
it raise. -/
theorem c1_stop_reason_table (s : GoStr) :
    mapStopReasonToRevenium s =
      (tableLookup reveniumStopReasonTable s).getD (gostr "END") := by
  simp only [mapStopReasonToRevenium, reveniumStopReasonTable, tableLookup]
  split_ifs <;> simp_all

/-! ## C2 — retryable-error classification -/

/-- C2: the code contradicts the claim (and its own doc comment on
`contains`).  `IsRetryableError` classifies the error message
`no such host` — which contains none of the fixed substrings, in any case —
as retryable, because the helper `contains` ignores its substring argument
and returns true for any string at least as long as the pattern. -/
theorem c2_isretryable_ignores_substrings :
    IsRetryableError (some (gostr "no such host")) = true ∧
      retryablePatterns.all
        (fun pattern => !containsCaseInsensitive (gostr "no such host") pattern) = true := by
  decide

/-! ## C3 — retry/backoff bounds -/

theorem retryAux_calls_le (cfg : RetryConfig) (f : ℕ → Option GoStr) :
    ∀ (left attempt backoff : ℕ),
      (retryAux cfg f attempt left backoff).calls ≤ left + 1 := by
  intro left
  induction left with
  | zero =>
    intro attempt backoff
    unfold retryAux
    cases f attempt with
    | none => simp
    | some e =>
      by_cases hr : IsRetryableError (some e) = true <;> simp [hr]
  | succ l ih =>
    intro attempt backoff
    unfold retryAux
    cases f attempt with
    | none => simp
    | some e =>
      by_cases hr : IsRetryableError (some e) = true
      · simp only [hr, if_true]
        have := ih (attempt + 1)
          (if cfg.MaxBackoff < cfg.BackoffMultiplier * backoff then cfg.MaxBackoff
           else cfg.BackoffMultiplier * backoff)
        omega
      · simp [hr]

theorem retryAux_waits_prefix (cfg : RetryConfig) (f : ℕ → Option GoStr) :
    ∀ (left attempt backoff : ℕ),
      (retryAux cfg f attempt left backoff).waits <+: backoffList cfg left backoff := by
  intro left
  induction left with
  | zero =>
    intro attempt backoff
    unfold retryAux
    cases f attempt with
    | none => simp
    | some e =>
      by_cases hr : IsRetryableError (some e) = true <;> simp [hr]
  | succ l ih =>
    intro attempt backoff
    unfold retryAux backoffList
    cases f attempt with
    | none => simp
    | some e =>
      by_cases hr : IsRetryableError (some e) = true
      · simp only [hr, if_true]
        exact List.cons_prefix_cons.mpr ⟨rfl, ih _ _⟩
      · simp [hr]

/-- C3, counterexample: under the default configuration a function that always
fails with a retryable error (message `timeout`) is invoked 4 times, not at
most 3 — `MaxRetries = 3` bounds the retries, and the loop
`for attempt := 0; attempt <= cfg.MaxRetries` makes 1 + 3 invocations. -/
theorem c3_four_invocations :
    (RetryWithBackoff DefaultRetryConfig (fun _ => some (gostr "timeout"))).calls = 4 ∧
      ¬(RetryWithBackoff DefaultRetryConfig (fun _ => some (gostr "timeout"))).calls ≤ 3 := by
  decide

/-- C3 as amended: for every function and a context that is never cancelled,
`RetryWithBackoff` under the default configuration invokes the function at
most 4 times in total (one initial attempt plus `MaxRetries = 3` retries),
and the waits between consecutive invocations form a prefix of the
100ms/200ms/400ms doubling sequence (each below the 5s cap, which is never
reached in 3 retries). -/
theorem c3_retry_bounds (f : ℕ → Option GoStr) :
    (RetryWithBackoff DefaultRetryConfig f).calls ≤ 4 ∧
      (RetryWithBackoff DefaultRetryConfig f).waits <+:
        [100000000, 200000000, 400000000] := by
  constructor
  · exact retryAux_calls_le DefaultRetryConfig f 3 0 DefaultRetryConfig.InitialBackoff
  · have h := retryAux_waits_prefix DefaultRetryConfig f 3 0 DefaultRetryConfig.InitialBackoff
    have hb : backoffList DefaultRetryConfig 3 DefaultRetryConfig.InitialBackoff =
        [100000000, 200000000, 400000000] := by decide
    rw [hb] at h
    exact h

/-! ## C8 — input-token estimation -/

theorem estimate_foldl_chars (msgs : List MessageParam) :
    ∀ acc : ℕ,
      msgs.foldl (fun acc msg => acc + msg.Content.length * 10) acc =
        acc + 10 * (msgs.map (fun msg => msg.Content.length)).sum := by
  induction msgs with
  | nil => intro acc; simp
  | cons m ms ih =>
    intro acc
    simp only [List.foldl, List.map, List.sum_cons]
    rw [ih]
    ring

/-- C8, counterexample: for a request with one message holding one content
block, `estimateInputTokens` returns 2 — below the claimed minimum of 10, and
unrelated to the character count of the message content (20 characters here,
so "about a quarter" would be 5). -/
theorem c8_estimate_below_minimum :
    estimateInputTokens
        ⟨[⟨gostr "user", [.text (gostr "Say hello in Spanish")]⟩]⟩ = 2 ∧
      ¬(10 ≤ estimateInputTokens
        ⟨[⟨gostr "user", [.text (gostr "Say hello in Spanish")]⟩]⟩) := by
  decide

/-- C8 as amended: the stream-open input-token estimate does not read message
text at all — it counts 10 characters per content block, so the estimate is
`(10 × number of content blocks) / 4` (2.5 tokens per block, floored), with 10
substituted only when there are no content blocks (quotient below 1).  In
particular it can be far below 10 and is independent of the serialized
message content's character count. -/
theorem c8_estimate_formula (params : MessageNewParams) :
    estimateInputTokens params =
      (if totalContentBlocks params = 0 then 10
       else 10 * totalContentBlocks params / 4) := by
  unfold estimateInputTokens totalContentBlocks
  rw [estimate_foldl_chars]
  simp only [Nat.zero_add]
  rcases Nat.eq_zero_or_pos (params.Messages.map (fun msg => msg.Content.length)).sum
    with h | h
  · simp [h]
  · have h4 : ¬(10 * (params.Messages.map (fun msg => msg.Content.length)).sum / 4 < 1) := by
      have : 10 * (params.Messages.map (fun msg => msg.Content.length)).sum ≥ 10 := by omega
      omega
    simp only [h4, if_false]
    have hne : ¬((params.Messages.map (fun msg => msg.Content.length)).sum = 0) := by omega
    simp [hne]

/-! ## C9 — provider detection -/

/-- C9, counterexample: with only a named AWS profile configured (no static
key pair, Bedrock not disabled, base URL empty), `DetectProvider` returns the
direct (Anthropic) provider, not the cloud-gateway provider the claim
requires — the function never consults `AWSProfile`. -/
theorem c9_profile_not_consulted :
    DetectProvider (some { AWSProfile := gostr "production" }) = Provider.anthropic ∧
      Provider.anthropic ≠ Provider.bedrock := by
  decide

/-- C9 as amended: `DetectProvider` selects the cloud-gateway (Bedrock)
provider exactly when Bedrock support is not disabled and either both a static
access key and secret are present, or the base URL is non-empty and contains
the cloud vendor's domain.  A named AWS profile does not participate in the
decision (it is only used later, by `loadAWSConfig`, to build the adapter);
the remaining order matches the spec: nil or disabled → direct,
key pair → gateway, vendor-domain base URL → gateway, otherwise direct. -/
theorem c9_detect_provider (cfg : Option Config) :
    DetectProvider cfg = Provider.bedrock ↔
      ∃ c, cfg = some c ∧ c.BedrockDisabled = false ∧
        ((c.AWSAccessKeyID ≠ [] ∧ c.AWSSecretAccessKey ≠ []) ∨
          (c.BaseURL ≠ [] ∧ goContains c.BaseURL (gostr "amazonaws.com") = true)) := by
  rcases cfg with _ | c
  · simp [DetectProvider]
  · simp only [DetectProvider, Option.some.injEq]
    split_ifs with h1 h2 h3
    · simp_all
    · simp_all
    · simp only [true_iff]
      exact ⟨c, rfl, by simp_all, Or.inr h3⟩
    · constructor
      · intro hcontra; cases hcontra
      · rintro ⟨c', rfl, hd, hcase⟩
        rcases hcase with hcreds | hurl
        · exact absurd hcreds h2
        · exact absurd hurl h3

/-! ## C4 — metering dispatch retry policy -/

theorem sendMeteringRequest_of_transient (o : MeterOutcome)
    (h : isTransientOutcome o = true) :
    ∃ e, sendMeteringRequest o = some e ∧ IsValidationError e = false := by
  cases o with
  | netFailure => exact ⟨_, rfl, rfl⟩
  | httpStatus c =>
    simp only [isTransientOutcome, decide_eq_true_eq] at h
    simp only [sendMeteringRequest]
    rw [if_neg (by omega), if_neg (by omega)]
    exact ⟨_, rfl, rfl⟩

theorem sendMeteringRequest_of_4xx (o : MeterOutcome)
    (h : is4xxOutcome o = true) :
    ∃ m, sendMeteringRequest o = some (.validationError m) := by
  cases o with
  | netFailure => simp [is4xxOutcome] at h
  | httpStatus c =>
    simp only [is4xxOutcome, Bool.and_eq_true, decide_eq_true_eq] at h
    simp only [sendMeteringRequest]
    rw [if_neg (by omega), if_pos (by omega)]
    exact ⟨_, rfl⟩

/-- C4: any HTTP 4xx response from the collector stops `sendMeteringWithRetry`
immediately — the 4xx attempt is the last send, and the `ValidationError`
produced by `sendMeteringRequest` is returned as-is (not wrapped in a
`MeteringError`); whereas if every attempt's outcome is transient (HTTP ≥ 500
or a network-level failure), the full budget of 3 sends is used and the result
is a `MeteringError` wrapping the exhaustion. -/
theorem c4_metering_retry_policy (outcomes : ℕ → MeterOutcome) (k : ℕ) (hk : k < 3)
    (hprev : ∀ j, j < k → isTransientOutcome (outcomes j) = true) :
    (is4xxOutcome (outcomes k) = true →
      (sendMeteringWithRetry outcomes).sends = k + 1 ∧
      (sendMeteringWithRetry outcomes).result = sendMeteringRequest (outcomes k) ∧
      ∃ m, sendMeteringRequest (outcomes k) = some (.validationError m)) ∧
    ((∀ j, j < 3 → isTransientOutcome (outcomes j) = true) →
      (sendMeteringWithRetry outcomes).sends = 3 ∧
      ∃ m, (sendMeteringWithRetry outcomes).result = some (.meteringError m)) := by
  constructor
  · intro hcur
    obtain ⟨m, hm⟩ := sendMeteringRequest_of_4xx _ hcur
    have hvm : IsValidationError (GoError.validationError m) = true := rfl
    interval_cases k
    · simp [sendMeteringWithRetry, meteringRetryAux, hm, hvm]
    · obtain ⟨e0, he0, hv0⟩ := sendMeteringRequest_of_transient _ (hprev 0 (by omega))
      simp [sendMeteringWithRetry, meteringRetryAux, he0, hv0, hm, hvm]
    · obtain ⟨e0, he0, hv0⟩ := sendMeteringRequest_of_transient _ (hprev 0 (by omega))
      obtain ⟨e1, he1, hv1⟩ := sendMeteringRequest_of_transient _ (hprev 1 (by omega))
      simp [sendMeteringWithRetry, meteringRetryAux, he0, hv0, he1, hv1, hm, hvm]
  · intro hall
    obtain ⟨e0, he0, hv0⟩ := sendMeteringRequest_of_transient _ (hall 0 (by omega))
    obtain ⟨e1, he1, hv1⟩ := sendMeteringRequest_of_transient _ (hall 1 (by omega))
    obtain ⟨e2, he2, hv2⟩ := sendMeteringRequest_of_transient _ (hall 2 (by omega))
    simp [sendMeteringWithRetry, meteringRetryAux, he0, hv0, he1, hv1, he2, hv2]

/-- C4, witness. -/
theorem c4_metering_retry_policy_witness :
    (sendMeteringWithRetry (fun _ => .httpStatus 429)).sends = 1 ∧
      (sendMeteringWithRetry (fun _ => .httpStatus 500)).sends = 3 := by
  refine ⟨?_, ?_⟩
  · exact ((c4_metering_retry_policy (fun _ => .httpStatus 429) 0 (by omega)
      (fun j hj => absurd hj (by omega))).1 (by decide)).1
  · exact ((c4_metering_retry_policy (fun _ => .httpStatus 500) 0 (by omega)
      (fun j hj => absurd hj (by omega))).2 (fun j _ => by decide)).1

/-! ## C10 — reserved payload fields vs caller metadata -/

theorem pget_buildMeteringPayload_unreserved (resp : AnthropicMessage)
    (metadata : Option Payload) (isStreamed : Bool) (duration : ℕ) (provider : GoStr)
    (startTime : ℕ) (params : Option MessageNewParams) (txId : GoStr) (k : String)
    (h1 : k ∉ passthroughMetadataKeys) (h2 : k ≠ "errorReason") (h3 : k ≠ "stopReason")
    (h4 : k ≠ "hasVisionContent") (h5 : k ≠ "attributes") :
    pget (buildMeteringPayload resp metadata isStreamed duration provider startTime params txId) k =
      pget (initialMeteringPayload resp isStreamed duration provider startTime txId) k := by
  unfold buildMeteringPayload
  rw [pget_applyVisionContent_other _ _ _ h4 h5]
  cases metadata with
  | none => rfl
  | some md =>
    exact (pget_applyErrorReason_other _ _ _ h2 h3).trans
      (pget_copyMetadataKeys_not_mem _ _ _ _ h1)

theorem pget_initialMeteringPayload_operationType (resp : AnthropicMessage)
    (isStreamed : Bool) (duration : ℕ) (provider : GoStr) (startTime : ℕ) (txId : GoStr) :
    pget (initialMeteringPayload resp isStreamed duration provider startTime txId)
      "operationType" = some (.str (gostr "CHAT")) := by
  simp [initialMeteringPayload, pget, List.find?]

/-- C10: if the caller metadata contains `errorReason`, the payload's
`stopReason` is overridden to `ERROR` regardless of what was mapped from the
provider response; and for every caller metadata map — including one
containing an `operationType` key — the payload's `operationType` remains the
fixed constant `CHAT` (the builder never copies that key). -/
theorem c10_reserved_fields (resp : AnthropicMessage) (md : Payload) (isStreamed : Bool)
    (duration : ℕ) (provider : GoStr) (startTime : ℕ) (params : Option MessageNewParams)
    (txId : GoStr) (h : ∃ v, pget md "errorReason" = some v) :
    pget (buildMeteringPayload resp (some md) isStreamed duration provider startTime params txId)
        "stopReason" = some (.str (gostr "ERROR")) ∧
      ∀ md' : Payload,
        pget (buildMeteringPayload resp (some md') isStreamed duration provider startTime params txId)
          "operationType" = some (.str (gostr "CHAT")) := by
  constructor
  · unfold buildMeteringPayload
    rw [pget_applyVisionContent_other _ _ _ (by decide) (by decide)]
    exact pget_applyErrorReason_stopReason _ _ h
  · intro md'
    rw [pget_buildMeteringPayload_unreserved _ _ _ _ _ _ _ _ _
      (by decide) (by decide) (by decide) (by decide) (by decide)]
    exact pget_initialMeteringPayload_operationType _ _ _ _ _ _

/-- C10, witness. -/
theorem c10_reserved_fields_witness :
    pget (buildMeteringPayload ⟨gostr "m", gostr "end_turn", ⟨3, 4⟩⟩
        (some [("errorReason", .str (gostr "boom")),
               ("operationType", .str (gostr "EMBED"))])
        false 0 (gostr "Anthropic") 0 none (gostr "tx"))
      "stopReason" = some (.str (gostr "ERROR")) := by
  exact (c10_reserved_fields ⟨gostr "m", gostr "end_turn", ⟨3, 4⟩⟩
    [("errorReason", .str (gostr "boom")), ("operationType", .str (gostr "EMBED"))]
    false 0 (gostr "Anthropic") 0 none (gostr "tx")
    ⟨.str (gostr "boom"), by decide⟩).1

/-! ## C5 — total = input + output invariant -/

theorem pget_initialMeteringPayload_tokens (resp : AnthropicMessage)
    (isStreamed : Bool) (duration : ℕ) (provider : GoStr) (startTime : ℕ) (txId : GoStr) :
    pget (initialMeteringPayload resp isStreamed duration provider startTime txId)
        "inputTokenCount" = some (.int resp.Usage.InputTokens) ∧
      pget (initialMeteringPayload resp isStreamed duration provider startTime txId)
        "outputTokenCount" = some (.int resp.Usage.OutputTokens) ∧
      pget (initialMeteringPayload resp isStreamed duration provider startTime txId)
        "totalTokenCount" =
          some (.int (resp.Usage.InputTokens + resp.Usage.OutputTokens)) := by
  refine ⟨?_, ?_, ?_⟩ <;> simp [initialMeteringPayload, pget, List.find?]

/-- The mutable streaming counters always satisfy
`totalTokens = inputTokens + outputTokens`: it holds at construction and is
re-established by `SetInputTokens` and by every authoritative usage delta. -/
theorem streaming_total_invariant (sw : StreamingWrapperState)
    (h : StreamingReachable sw) :
    sw.totalTokens = sw.inputTokens + sw.outputTokens := by
  induction h with
  | init model provider => simp [initStreamingWrapper]
  | setInput sw tokens _ _ => simp [SetInputTokens]
  | usageDelta sw usageIn usageOut _ _ => simp [applyUsageDelta]
  | content sw text _ ih => simpa [applyContentText] using ih
  | stopReasonEvent sw reason _ ih =>
    unfold applyStopReason
    split_ifs <;> simpa using ih

theorem pget_closeStreamingPayload_tokens (sw : StreamingWrapperState)
    (metadata : Option Payload) (duration startTime : ℕ) (timeToFirstToken : ℤ)
    (firstTokenTime : Option ℕ) (txId : GoStr) (params : Option MessageNewParams)
    (promptData : Option PromptData) :
    pget (closeStreamingPayload sw metadata duration startTime timeToFirstToken
        firstTokenTime txId params promptData) "inputTokenCount" =
        some (.int sw.inputTokens) ∧
      pget (closeStreamingPayload sw metadata duration startTime timeToFirstToken
        firstTokenTime txId params promptData) "outputTokenCount" =
        some (.int sw.outputTokens) ∧
      pget (closeStreamingPayload sw metadata duration startTime timeToFirstToken
        firstTokenTime txId params promptData) "totalTokenCount" =
        some (.int sw.totalTokens) := by
  unfold closeStreamingPayload
  rcases promptData with _ | pd <;> rcases firstTokenTime with _ | t <;>
    refine ⟨?_, ?_, ?_⟩ <;>
    simp [pget_ite, pget_pset_same, pget_pset_ne]

/-- C5: in every telemetry payload produced for dispatch, `totalTokenCount`
equals `inputTokenCount + outputTokenCount` — for non-streaming payloads the
builder computes the total as the sum of the response's usage counters, and
for streaming payloads the overrides applied in `StreamingWrapper.Close` carry
the session counters, whose total/input/output invariant holds in every
reachable session state. -/
theorem c5_total_token_invariant (resp : AnthropicMessage) (metadata : Option Payload)
    (isStreamed : Bool) (duration : ℕ) (provider : GoStr) (startTime : ℕ)
    (params : Option MessageNewParams) (txId : GoStr) (sw : StreamingWrapperState)
    (hsw : StreamingReachable sw) (metadata' : Option Payload) (duration' startTime' : ℕ)
    (timeToFirstToken : ℤ) (firstTokenTime : Option ℕ) (txId' : GoStr)
    (params' : Option MessageNewParams) (promptData : Option PromptData) :
    (∃ i o : ℤ,
      pget (buildMeteringPayload resp metadata isStreamed duration provider startTime params txId)
          "inputTokenCount" = some (.int i) ∧
      pget (buildMeteringPayload resp metadata isStreamed duration provider startTime params txId)
          "outputTokenCount" = some (.int o) ∧
      pget (buildMeteringPayload resp metadata isStreamed duration provider startTime params txId)
          "totalTokenCount" = some (.int (i + o))) ∧
    (∃ i o : ℤ,
      pget (closeStreamingPayload sw metadata' duration' startTime' timeToFirstToken
          firstTokenTime txId' params' promptData) "inputTokenCount" = some (.int i) ∧
      pget (closeStreamingPayload sw metadata' duration' startTime' timeToFirstToken
          firstTokenTime txId' params' promptData) "outputTokenCount" = some (.int o) ∧
      pget (closeStreamingPayload sw metadata' duration' startTime' timeToFirstToken
          firstTokenTime txId' params' promptData) "totalTokenCount" = some (.int (i + o))) := by
  constructor
  · refine ⟨resp.Usage.InputTokens, resp.Usage.OutputTokens, ?_, ?_, ?_⟩ <;>
      rw [pget_buildMeteringPayload_unreserved _ _ _ _ _ _ _ _ _
        (by decide) (by decide) (by decide) (by decide) (by decide)]
    · exact (pget_initialMeteringPayload_tokens resp isStreamed duration provider startTime txId).1
    · exact (pget_initialMeteringPayload_tokens resp isStreamed duration provider startTime txId).2.1
    · exact (pget_initialMeteringPayload_tokens resp isStreamed duration provider startTime txId).2.2
  · obtain ⟨h1, h2, h3⟩ := pget_closeStreamingPayload_tokens sw metadata' duration'
      startTime' timeToFirstToken firstTokenTime txId' params' promptData
    refine ⟨sw.inputTokens, sw.outputTokens, h1, h2, ?_⟩
    rw [h3, streaming_total_invariant sw hsw]

/-- C5, witness: a concrete streaming session that set an estimate, then
received an authoritative usage delta. -/
theorem c5_total_token_invariant_witness :
    ∃ i o : ℤ,
      pget (closeStreamingPayload
          (applyUsageDelta (SetInputTokens (initStreamingWrapper (gostr "m") (gostr "Anthropic")) 10) 7 3)
          none 5 0 2 none (gostr "tx") none none) "inputTokenCount" = some (.int i) ∧
      pget (closeStreamingPayload
          (applyUsageDelta (SetInputTokens (initStreamingWrapper (gostr "m") (gostr "Anthropic")) 10) 7 3)
          none 5 0 2 none (gostr "tx") none none) "outputTokenCount" = some (.int o) ∧
      pget (closeStreamingPayload
          (applyUsageDelta (SetInputTokens (initStreamingWrapper (gostr "m") (gostr "Anthropic")) 10) 7 3)
          none 5 0 2 none (gostr "tx") none none) "totalTokenCount" = some (.int (i + o)) := by
  exact (c5_total_token_invariant ⟨gostr "m", gostr "end_turn", ⟨1, 2⟩⟩ none false 0
    (gostr "Anthropic") 0 none (gostr "tx")
    (applyUsageDelta (SetInputTokens (initStreamingWrapper (gostr "m") (gostr "Anthropic")) 10) 7 3)
    (StreamingReachable.usageDelta _ 7 3
      (StreamingReachable.setInput _ 10 (StreamingReachable.init _ _)))
    none 5 0 2 none (gostr "tx") none none).2

/-! ## C6 — model-ID round trip -/

theorem goHasPrefix_nil_right (s : GoStr) : goHasPrefix s [] = true := by
  cases s <;> rfl

theorem goHasPrefix_append (p t : GoStr) : goHasPrefix (p ++ t) p = true := by
  induction p with
  | nil => exact goHasPrefix_nil_right t
  | cons c cs ih => simp [goHasPrefix, ih]

theorem goHasPrefix_decomp (s p : GoStr) (h : goHasPrefix s p = true) :
    s = p ++ s.drop p.length := by
  induction p generalizing s with
  | nil => simp
  | cons c cs ih =>
    cases s with
    | nil => simp [goHasPrefix] at h
    | cons x xs =>
      simp only [goHasPrefix, Bool.and_eq_true, decide_eq_true_eq] at h
      obtain ⟨rfl, h2⟩ := h
      simpa using ih xs h2

theorem goContains_of_hasPrefix (s sub : GoStr) (h : goHasPrefix s sub = true) :
    goContains s sub = true := by
  cases s with
  | nil => exact h
  | cons c cs => simp [goContains, h]

theorem goSplitAux_cons_sep (sep : GoStr) (hne : sep ≠ []) (acc l₂ : GoStr) :
    goSplitAux sep acc (sep ++ l₂) = acc.reverse :: goSplitAux sep [] l₂ := by
  match sep, hne with
  | s0 :: ss, _ =>
    have heq : s0 :: (ss ++ l₂) = (s0 :: ss) ++ l₂ := rfl
    have hcond : goHasPrefix (s0 :: (ss ++ l₂)) (s0 :: ss) = true ∧
        (s0 :: ss : GoStr) ≠ [] := by
      refine ⟨?_, by simp⟩
      rw [heq]
      exact goHasPrefix_append _ _
    show goSplitAux (s0 :: ss) acc (s0 :: (ss ++ l₂)) = _
    conv_lhs => rw [goSplitAux]
    rw [dif_pos hcond]
    congr 1
    rw [heq, List.drop_left]

theorem goSplitAux_cons_nosep (sep : GoStr) (c : Char) (acc xs : GoStr)
    (h : goHasPrefix (c :: xs) sep = false) :
    goSplitAux sep acc (c :: xs) = goSplitAux sep (c :: acc) xs := by
  conv_lhs => rw [goSplitAux]
  rw [dif_neg]
  simp [h]

theorem sepFreeB_cons (sep : GoStr) (c : Char) (rest : GoStr)
    (h : sepFreeB sep (c :: rest) = true) :
    goHasPrefix (c :: rest) sep = false ∧ sepFreeB sep rest = true := by
  simp only [sepFreeB, List.all_eq_true, List.mem_range] at h
  constructor
  · have := h 0 (by omega)
    simpa using this
  · simp only [sepFreeB, List.all_eq_true, List.mem_range]
    intro i hi
    have := h (i + 1) (by simpa using hi)
    simpa using this

theorem boundaryFreeB_cons (sep : GoStr) (x : Char) (xs rest : GoStr)
    (h : boundaryFreeB sep (x :: xs) rest = true) :
    goHasPrefix (x :: (xs ++ rest)) sep = false ∧ boundaryFreeB sep xs rest = true := by
  simp only [boundaryFreeB, List.all_eq_true, List.mem_range] at h
  constructor
  · have := h 0 (by simp)
    simpa using this
  · simp only [boundaryFreeB, List.all_eq_true, List.mem_range]
    intro i hi
    have := h (i + 1) (by simpa using hi)
    simpa using this

theorem goSplitAux_sepFree (sep : GoStr) (s : GoStr) (h : sepFreeB sep s = true) :
    ∀ acc, goSplitAux sep acc s = [acc.reverse ++ s] := by
  induction s with
  | nil => intro acc; simp [goSplitAux]
  | cons c rest ih =>
    intro acc
    obtain ⟨h0, h1⟩ := sepFreeB_cons sep c rest h
    rw [goSplitAux_cons_nosep sep c acc rest h0]
    simpa [List.reverse_cons] using ih h1 (c :: acc)

theorem goSplitAux_boundary (sep : GoStr) (hne : sep ≠ []) (l₂ : GoStr) :
    ∀ l₁, boundaryFreeB sep l₁ (sep ++ l₂) = true →
      ∀ acc, goSplitAux sep acc (l₁ ++ (sep ++ l₂)) =
        (acc.reverse ++ l₁) :: goSplitAux sep [] l₂ := by
  intro l₁
  induction l₁ with
  | nil =>
    intro _ acc
    simpa using goSplitAux_cons_sep sep hne acc l₂
  | cons x xs ih =>
    intro h acc
    obtain ⟨h0, h1⟩ := boundaryFreeB_cons sep x xs (sep ++ l₂) h
    show goSplitAux sep acc (x :: (xs ++ (sep ++ l₂))) = _
    rw [goSplitAux_cons_nosep sep x acc _ (by simpa using h0)]
    simpa [List.reverse_cons] using ih h1 (x :: acc)

theorem goSplit_sepFree (sep : GoStr) (hne : sep ≠ []) (s : GoStr)
    (h : sepFreeB sep s = true) : goSplit s sep = [s] := by
  unfold goSplit
  rw [if_neg hne]
  simpa using goSplitAux_sepFree sep s h []

theorem goSplit_boundary (sep : GoStr) (hne : sep ≠ []) (l₁ l₂ : GoStr)
    (h : boundaryFreeB sep l₁ (sep ++ l₂) = true) :
    goSplit (l₁ ++ (sep ++ l₂)) sep = l₁ :: goSplitAux sep [] l₂ := by
  unfold goSplit
  rw [if_neg hne]
  simpa using goSplitAux_boundary sep hne l₂ l₁ h []

theorem sepFreeB_single_of_not_mem (c : Char) (s : GoStr) (h : c ∉ s) :
    sepFreeB [c] s = true := by
  simp only [sepFreeB, List.all_eq_true, List.mem_range]
  intro i _
  cases hd : List.drop i s with
  | nil => simp [goHasPrefix]
  | cons x xs =>
    have hx : x ∈ s := by
      have : x ∈ List.drop i s := by rw [hd]; exact List.mem_cons_self x xs
      exact List.mem_of_mem_drop this
    have hxc : ¬(x = c) := fun e => h (e ▸ hx)
    simp [goHasPrefix, goHasPrefix_nil_right, hxc]

theorem boundaryFreeB_single_of_not_mem (c : Char) (l₁ rest : GoStr) (h : c ∉ l₁) :
    boundaryFreeB [c] l₁ rest = true := by
  simp only [boundaryFreeB, List.all_eq_true, List.mem_range]
  intro i hi
  rw [List.drop_append_of_le_length (by omega)]
  cases hd : List.drop i l₁ with
  | nil =>
    have : (List.drop i l₁).length = l₁.length - i := List.length_drop i l₁
    rw [hd] at this
    simp at this
    omega
  | cons x xs =>
    have hx : x ∈ l₁ := by
      have : x ∈ List.drop i l₁ := by rw [hd]; exact List.mem_cons_self x xs
      exact List.mem_of_mem_drop this
    have hxc : ¬(x = c) := fun e => h (e ▸ hx)
    simp [goHasPrefix, goHasPrefix_nil_right, hxc]

theorem matchColonAcct_chars (r : GoStr) (h : matchColonAcct r = true) :
    r.all arnOkChar = true := by
  cases r with
  | nil => simp [matchColonAcct] at h
  | cons x xs =>
    simp only [matchColonAcct, Bool.and_eq_true, decide_eq_true_eq] at h
    obtain ⟨rfl, _, hall⟩ := h
    simp only [List.all_cons, Bool.and_eq_true]
    refine ⟨by decide, ?_⟩
    simp only [List.all_eq_true] at hall ⊢
    intro a ha
    simp [arnOkChar, hall a ha]

theorem matchDigitsCont_chars (r : GoStr) (h : matchDigitsCont r = true) :
    r.all arnOkChar = true := by
  induction r with
  | nil => simp [matchDigitsCont] at h
  | cons x xs ih =>
    simp only [matchDigitsCont] at h
    by_cases hd : isDigit09 x = true
    · rw [if_pos hd] at h
      simp [List.all_cons, arnOkChar, hd, ih h]
    · rw [if_neg hd] at h
      exact matchColonAcct_chars _ h

theorem matchDigits1_chars (r : GoStr) (h : matchDigits1 r = true) :
    r.all arnOkChar = true := by
  cases r with
  | nil => simp [matchDigits1] at h
  | cons x xs =>
    simp only [matchDigits1, Bool.and_eq_true] at h
    simp [List.all_cons, arnOkChar, h.1, matchDigitsCont_chars xs h.2]

theorem matchDashDigits_chars (r : GoStr) (h : matchDashDigits r = true) :
    r.all arnOkChar = true := by
  cases r with
  | nil => simp [matchDashDigits] at h
  | cons x xs =>
    simp only [matchDashDigits, Bool.and_eq_true, decide_eq_true_eq] at h
    obtain ⟨rfl, hrest⟩ := h
    simp [List.all_cons, arnOkChar, matchDigits1_chars xs hrest]

theorem matchLowersCont_chars (r : GoStr) (h : matchLowersCont r = true) :
    r.all arnOkChar = true := by
  induction r with
  | nil => simp [matchLowersCont] at h
  | cons x xs ih =>
    simp only [matchLowersCont] at h
    by_cases hl : isLowerAZ x = true
    · rw [if_pos hl] at h
      simp [List.all_cons, arnOkChar, hl, ih h]
    · rw [if_neg hl] at h
      exact matchDashDigits_chars _ h

theorem matchLowers1_chars (r : GoStr) (h : matchLowers1 r = true) :
    r.all arnOkChar = true := by
  cases r with
  | nil => simp [matchLowers1] at h
  | cons x xs =>
    simp only [matchLowers1, Bool.and_eq_true] at h
    simp [List.all_cons, arnOkChar, h.1, matchLowersCont_chars xs h.2]

theorem matchRegionAcct_chars (r : GoStr) (h : matchRegionAcct r = true) :
    r.all arnOkChar = true := by
  match r with
  | [] => simp [matchRegionAcct] at h
  | [c1] => simp [matchRegionAcct] at h
  | [c1, c2] => simp [matchRegionAcct] at h
  | c1 :: c2 :: x :: rest =>
    simp only [matchRegionAcct, Bool.and_eq_true, decide_eq_true_eq] at h
    obtain ⟨⟨⟨h1, h2⟩, rfl⟩, hrest⟩ := h
    simp [List.all_cons, arnOkChar, h1, h2, matchLowers1_chars rest hrest]

theorem arnPatternMatch_chars (s : GoStr) (h : arnPatternMatch s = true) :
    s.all arnOkChar = true := by
  simp only [arnPatternMatch, Bool.and_eq_true] at h
  have hdecomp := goHasPrefix_decomp s _ h.1
  rw [hdecomp, List.all_append, Bool.and_eq_true]
  exact ⟨by decide, matchRegionAcct_chars _ h.2⟩

theorem arnPatternMatch_no_slash (s : GoStr) (h : arnPatternMatch s = true) :
    '/' ∉ s := by
  intro hmem
  have hall := arnPatternMatch_chars s h
  simp only [List.all_eq_true] at hall
  have := hall '/' hmem
  simp [arnOkChar, isLowerAZ, isDigit09] at this

theorem stripVersionSuffix_sepFree (s : GoStr)
    (h1 : sepFreeB (gostr "-v") s = true) (h2 : sepFreeB (gostr ":") s = true) :
    stripVersionSuffix s = s := by
  unfold stripVersionSuffix goSplitFirst
  rw [goSplit_sepFree _ (by decide) _ h1]
  simp only [List.getD_cons_zero]
  rw [goSplit_sepFree _ (by decide) _ h2]
  rfl

theorem stripVersionSuffix_strips (m : GoStr)
    (hb : boundaryFreeB (gostr "-v") m (gostr "-v1:0") = true) :
    stripVersionSuffix (m ++ gostr "-v1:0") = goSplitFirst m (gostr ":") := by
  unfold stripVersionSuffix
  have hdec : (gostr "-v1:0" : GoStr) = gostr "-v" ++ gostr "1:0" := by decide
  have : goSplitFirst (m ++ gostr "-v1:0") (gostr "-v") = m := by
    unfold goSplitFirst
    rw [hdec, goSplit_boundary _ (by decide) _ _ (by rw [← hdec]; exact hb)]
    rfl
  rw [this]

theorem convert_full_arn (base tail : GoStr) (hb : arnPatternMatch base = true)
    (ht : '/' ∉ tail) :
    ConvertBedrockARNToAnthropicModel (base ++ (gostr ":inference-profile/" ++ tail)) =
      .ok (stripVersionSuffix (trimRegionAnthropicPrefixes tail)) := by
  have hpre : goHasPrefix base (gostr "arn:aws:bedrock:") = true := by
    have h' := hb
    simp only [arnPatternMatch, Bool.and_eq_true] at h'
    exact h'.1
  have hdecomp := goHasPrefix_decomp base _ hpre
  -- the full model string contains "arn:aws:bedrock"
  have hcontains :
      goContains (base ++ (gostr ":inference-profile/" ++ tail)) (gostr "arn:aws:bedrock") =
        true := by
    apply goContains_of_hasPrefix
    rw [hdecomp]
    have h16 : gostr "arn:aws:bedrock:" = gostr "arn:aws:bedrock" ++ [':'] := by decide
    rw [h16, List.append_assoc, List.append_assoc]
    exact goHasPrefix_append _ _
  -- splitting on "/" yields exactly two parts
  have hfull :
      base ++ (gostr ":inference-profile/" ++ tail) =
        (base ++ gostr ":inference-profile") ++ (gostr "/" ++ tail) := by
    have hsep : (gostr ":inference-profile/" : GoStr) =
        gostr ":inference-profile" ++ gostr "/" := by decide
    rw [hsep]
    simp
  have hnoslash1 : '/' ∉ base ++ gostr ":inference-profile" := by
    intro hmem
    rcases List.mem_append.mp hmem with hmem | hmem
    · exact arnPatternMatch_no_slash base hb hmem
    · revert hmem; decide
  have hslash : (gostr "/" : GoStr) = ['/'] := by decide
  have hsplit :
      goSplit (base ++ (gostr ":inference-profile/" ++ tail)) (gostr "/") =
        [base ++ gostr ":inference-profile", tail] := by
    rw [hfull, hslash, goSplit_boundary ['/'] (by decide) _ _
      (boundaryFreeB_single_of_not_mem '/' _ _ hnoslash1)]
    rw [goSplitAux_sepFree ['/'] tail (sepFreeB_single_of_not_mem '/' tail ht) []]
    rfl
  unfold ConvertBedrockARNToAnthropicModel
  rw [if_neg (by simp [hcontains]), if_pos ⟨hcontains, by rw [hsplit]; simp⟩, hsplit]
  simp

theorem convert_anthropic_prefixed (m : GoStr)
    (h1 : goContains (gostr "anthropic." ++ m) (gostr "arn:aws:bedrock") = false)
    (h3 : sepFreeB (gostr "-v") m = true) (h4 : sepFreeB (gostr ":") m = true) :
    ConvertBedrockARNToAnthropicModel (gostr "anthropic." ++ m) = .ok m := by
  have hpre : goHasPrefix (gostr "anthropic." ++ m) (gostr "anthropic.") = true :=
    goHasPrefix_append _ _
  unfold ConvertBedrockARNToAnthropicModel
  rw [if_neg (by simp [hpre]), if_neg (by simp [h1]), if_pos hpre]
  unfold goTrimPrefix
  rw [if_pos hpre, List.drop_left, stripVersionSuffix_sepFree m h3 h4]

/-- C6: for every model name in the supported direct-API set, converting to
the gateway (Bedrock) identifier with `GetBedrockModelID` — under any
configuration: no config, no base ARN, a valid configured base ARN, or an
invalid one (which falls back to the standard `anthropic.` format) — and
converting back with `ConvertBedrockARNToAnthropicModel` returns the original
model name with no error. -/
theorem c6_model_roundtrip (config : Option Config) (m : GoStr)
    (hm : m ∈ supportedAnthropicModels) :
    ConvertBedrockARNToAnthropicModel (GetBedrockModelID m config) = .ok m := by
  have hstdeq : ∀ m' : GoStr, goHasPrefix m' (gostr "anthropic.") = false →
      standardBedrockFormat m' = gostr "anthropic." ++ m' := by
    intro m' hpm
    unfold standardBedrockFormat
    rw [if_neg (by simp [hpm])]
  have hstd : ∀ m' : GoStr, m' ∈ supportedAnthropicModels →
      ConvertBedrockARNToAnthropicModel (standardBedrockFormat m') = .ok m' := by
    intro m' hm'
    fin_cases hm' <;>
      · rw [hstdeq _ (by decide)]
        exact convert_anthropic_prefixed _ (by decide) (by decide) (by decide)
  have key : ∀ base : GoStr, arnPatternMatch base = true →
      ∀ m' : GoStr, m' ∈ supportedAnthropicModels →
      ConvertBedrockARNToAnthropicModel
        (base ++ gostr ":inference-profile/us.anthropic." ++ m' ++ gostr "-v1:0") =
        .ok m' := by
    intro base hbase m' hm'
    have hassoc :
        base ++ gostr ":inference-profile/us.anthropic." ++ m' ++ gostr "-v1:0" =
          base ++ (gostr ":inference-profile/" ++
            (gostr "us.anthropic." ++ (m' ++ gostr "-v1:0"))) := by
      have h0 : (gostr ":inference-profile/us.anthropic." : GoStr) =
          gostr ":inference-profile/" ++ gostr "us.anthropic." := by decide
      rw [h0]
      simp
    have htrim : ∀ t : GoStr, goHasPrefix t (gostr "eu.anthropic.") = false →
        goHasPrefix t (gostr "ap.anthropic.") = false →
        trimRegionAnthropicPrefixes (gostr "us.anthropic." ++ t) = t := by
      intro t he hap
      have e1 : goTrimPrefix (gostr "us.anthropic." ++ t) (gostr "us.anthropic.") = t := by
        unfold goTrimPrefix
        rw [if_pos (goHasPrefix_append _ _)]
        exact List.drop_left _ _
      have e2 : goTrimPrefix t (gostr "eu.anthropic.") = t := by
        unfold goTrimPrefix
        rw [if_neg (by simp [he])]
      have e3 : goTrimPrefix t (gostr "ap.anthropic.") = t := by
        unfold goTrimPrefix
        rw [if_neg (by simp [hap])]
      unfold trimRegionAnthropicPrefixes
      rw [e1, e2, e3]
    rw [hassoc]
    fin_cases hm' <;>
      · rw [convert_full_arn _ _ hbase (by decide)]
        rw [htrim _ (by decide) (by decide)]
        rw [stripVersionSuffix_strips _ (by decide)]
        unfold goSplitFirst
        rw [goSplit_sepFree _ (by decide) _ (by decide)]
        rfl
  rcases config with _ | cfg
  · rw [show GetBedrockModelID m none = standardBedrockFormat m by
      unfold GetBedrockModelID
      rw [if_neg (by fin_cases hm <;> decide)]]
    exact hstd m hm
  · by_cases hnil : cfg.AWSModelARNBase = []
    · rw [show GetBedrockModelID m (some cfg) = standardBedrockFormat m by
        unfold GetBedrockModelID
        rw [if_neg (by fin_cases hm <;> decide)]
        simp [hnil]]
      exact hstd m hm
    · by_cases hmatch : arnPatternMatch cfg.AWSModelARNBase = true
      · have hconstruct : ConstructFullBedrockARN cfg.AWSModelARNBase m =
            .ok (cfg.AWSModelARNBase ++ gostr ":inference-profile/us.anthropic." ++ m ++
              gostr "-v1:0") := by
          unfold ConstructFullBedrockARN ValidateBedrockBaseARN
          rw [if_neg hnil, if_pos hmatch]
          rw [if_neg (by fin_cases hm <;> decide)]
        rw [show GetBedrockModelID m (some cfg) =
            cfg.AWSModelARNBase ++ gostr ":inference-profile/us.anthropic." ++ m ++
              gostr "-v1:0" by
          unfold GetBedrockModelID
          rw [if_neg (by fin_cases hm <;> decide)]
          simp [hnil, hconstruct]]
        exact key _ hmatch m hm
      · have herr : ∃ e, ConstructFullBedrockARN cfg.AWSModelARNBase m = .error e := by
          unfold ConstructFullBedrockARN ValidateBedrockBaseARN
          rw [if_neg hnil, if_neg hmatch]
          split_ifs <;> exact ⟨_, rfl⟩
        obtain ⟨e, he⟩ := herr
        rw [show GetBedrockModelID m (some cfg) = standardBedrockFormat m by
          unfold GetBedrockModelID
          rw [if_neg (by fin_cases hm <;> decide)]
          simp [hnil, he]]
        exact hstd m hm

/-- C6, witness. -/
theorem c6_model_roundtrip_witness :
    ConvertBedrockARNToAnthropicModel
        (GetBedrockModelID (gostr "claude-sonnet-4-20250514")
          (some { AWSModelARNBase := gostr "arn:aws:bedrock:us-east-1:123456789012" })) =
      .ok (gostr "claude-sonnet-4-20250514") := by
  exact c6_model_roundtrip
    (some { AWSModelARNBase := gostr "arn:aws:bedrock:us-east-1:123456789012" })
    (gostr "claude-sonnet-4-20250514") (by decide)

/-! ## C7 — UTF-8-safe truncation -/

theorem encodeChar_length_pos (c : ℕ) : 0 < (encodeChar c).length := by
  unfold encodeChar
  split_ifs <;> simp

theorem encodeChar_getD_zero_not_cont (c : ℕ) :
    isContB ((encodeChar c).getD 0 0) = false := by
  unfold encodeChar
  split_ifs with h1 h2 h3 <;>
    simp only [List.getD_cons_zero, isContB, Bool.and_eq_false_iff,
      decide_eq_false_iff_not, not_le, not_lt] <;>
    omega

theorem encodeChar_getD_cont (c q : ℕ) (h0 : 0 < q) (hq : q < (encodeChar c).length) :
    isContB ((encodeChar c).getD q 0) = true := by
  unfold encodeChar at hq ⊢
  split_ifs at hq ⊢ with h1 h2 h3
  · simp at hq; omega
  · simp only [List.length_cons, List.length_nil] at hq
    interval_cases q
    simp only [List.getD_cons_succ, List.getD_cons_zero, isContB,
      Bool.and_eq_true, decide_eq_true_eq]
    omega
  · simp only [List.length_cons, List.length_nil] at hq
    interval_cases q <;>
      · simp only [List.getD_cons_succ, List.getD_cons_zero, isContB,
          Bool.and_eq_true, decide_eq_true_eq]
        omega
  · simp only [List.length_cons, List.length_nil] at hq
    interval_cases q <;>
      · simp only [List.getD_cons_succ, List.getD_cons_zero, isContB,
          Bool.and_eq_true, decide_eq_true_eq]
        omega

theorem encodeStr_cons (c : ℕ) (cs : List ℕ) :
    encodeStr (c :: cs) = encodeChar c ++ encodeStr cs := by
  simp [encodeStr]

theorem encodeStr_append (cs₁ cs₂ : List ℕ) :
    encodeStr (cs₁ ++ cs₂) = encodeStr cs₁ ++ encodeStr cs₂ := by
  simp [encodeStr]

theorem validAux_zero_bounds (lo hi : ℕ) (s : GoBytes) :
    validAux 0 lo hi s = validAux 0 0 0 s := by
  cases s <;> rfl

theorem validString_append_encodeChar (c : ℕ) (t : GoBytes) (hc : GoodCp c)
    (ht : validString t = true) : validString (encodeChar c ++ t) = true := by
  obtain ⟨hmax, hsurr⟩ := hc
  rw [not_and, not_lt] at hsurr
  show validAux 0 0 0 (encodeChar c ++ t) = true
  by_cases h1 : c < 0x80
  · have he : encodeChar c = [c] := by
      unfold encodeChar
      rw [if_pos h1]
    rw [he]
    simp only [List.cons_append, List.nil_append]
    simp only [validAux]
    rw [if_pos h1]
    exact ht
  · by_cases h2 : c < 0x800
    · have he : encodeChar c = [0xC0 + c / 64, 0x80 + c % 64] := by
        unfold encodeChar
        rw [if_neg h1, if_pos h2]
      have g1 : ¬(0xC0 + c / 64 < 0x80) := by omega
      have g2 : 0xC2 ≤ 0xC0 + c / 64 ∧ 0xC0 + c / 64 ≤ 0xDF := by omega
      have g3 : 0x80 ≤ 0x80 + c % 64 ∧ 0x80 + c % 64 ≤ 0xBF := by omega
      rw [he]
      simp only [List.cons_append, List.nil_append]
      simp only [validAux]
      rw [if_neg g1, if_pos g2, if_pos g3, validAux_zero_bounds]
      exact ht
    · by_cases h3 : c < 0x10000
      · have he : encodeChar c =
            [0xE0 + c / 4096, 0x80 + c / 64 % 64, 0x80 + c % 64] := by
          unfold encodeChar
          rw [if_neg h1, if_neg h2, if_pos h3]
        have g1 : ¬(0xE0 + c / 4096 < 0x80) := by omega
        have g2 : ¬(0xC2 ≤ 0xE0 + c / 4096 ∧ 0xE0 + c / 4096 ≤ 0xDF) := by omega
        have gc2 : 0x80 ≤ 0x80 + c % 64 ∧ 0x80 + c % 64 ≤ 0xBF := by omega
        rw [he]
        simp only [List.cons_append, List.nil_append]
        simp only [validAux]
        by_cases hA : c < 0x1000
        · have gE0 : 0xE0 + c / 4096 = 0xE0 := by omega
          have gb1 : 0xA0 ≤ 0x80 + c / 64 % 64 ∧ 0x80 + c / 64 % 64 ≤ 0xBF := by omega
          rw [if_neg g1, if_neg g2, if_pos gE0, if_pos gb1, if_pos gc2,
            validAux_zero_bounds]
          exact ht
        · by_cases hB : 0xD000 ≤ c ∧ c < 0xE000
          · have hcd : c < 0xD800 := by
              rcases Nat.lt_or_ge c 0xD800 with h | h
              · exact h
              · exact absurd (hsurr h) (by omega)
            have gE0 : ¬(0xE0 + c / 4096 = 0xE0) := by omega
            have gmid : ¬((0xE1 ≤ 0xE0 + c / 4096 ∧ 0xE0 + c / 4096 ≤ 0xEC) ∨
                (0xEE ≤ 0xE0 + c / 4096 ∧ 0xE0 + c / 4096 ≤ 0xEF)) := by omega
            have gED : 0xE0 + c / 4096 = 0xED := by omega
            have gb1 : 0x80 ≤ 0x80 + c / 64 % 64 ∧ 0x80 + c / 64 % 64 ≤ 0x9F := by omega
            rw [if_neg g1, if_neg g2, if_neg gE0, if_neg gmid, if_pos gED, if_pos gb1,
              if_pos gc2, validAux_zero_bounds]
            exact ht
          · have gE0 : ¬(0xE0 + c / 4096 = 0xE0) := by omega
            have gmid : (0xE1 ≤ 0xE0 + c / 4096 ∧ 0xE0 + c / 4096 ≤ 0xEC) ∨
                (0xEE ≤ 0xE0 + c / 4096 ∧ 0xE0 + c / 4096 ≤ 0xEF) := by omega
            have gb1 : 0x80 ≤ 0x80 + c / 64 % 64 ∧ 0x80 + c / 64 % 64 ≤ 0xBF := by omega
            rw [if_neg g1, if_neg g2, if_neg gE0, if_pos gmid, if_pos gb1, if_pos gc2,
              validAux_zero_bounds]
            exact ht
      · have he : encodeChar c =
            [0xF0 + c / 262144, 0x80 + c / 4096 % 64, 0x80 + c / 64 % 64,
              0x80 + c % 64] := by
          unfold encodeChar
          rw [if_neg h1, if_neg h2, if_neg h3]
        have g1 : ¬(0xF0 + c / 262144 < 0x80) := by omega
        have g2 : ¬(0xC2 ≤ 0xF0 + c / 262144 ∧ 0xF0 + c / 262144 ≤ 0xDF) := by omega
        have g3 : ¬(0xF0 + c / 262144 = 0xE0) := by omega
        have g4 : ¬((0xE1 ≤ 0xF0 + c / 262144 ∧ 0xF0 + c / 262144 ≤ 0xEC) ∨
            (0xEE ≤ 0xF0 + c / 262144 ∧ 0xF0 + c / 262144 ≤ 0xEF)) := by omega
        have g5 : ¬(0xF0 + c / 262144 = 0xED) := by omega
        have gb2 : 0x80 ≤ 0x80 + c / 64 % 64 ∧ 0x80 + c / 64 % 64 ≤ 0xBF := by omega
        have gb3 : 0x80 ≤ 0x80 + c % 64 ∧ 0x80 + c % 64 ≤ 0xBF := by omega
        rw [he]
        simp only [List.cons_append, List.nil_append]
        simp only [validAux]
        by_cases hA : c < 0x40000
        · have gF0 : 0xF0 + c / 262144 = 0xF0 := by omega
          have gb1 : 0x90 ≤ 0x80 + c / 4096 % 64 ∧ 0x80 + c / 4096 % 64 ≤ 0xBF := by
            omega
          rw [if_neg g1, if_neg g2, if_neg g3, if_neg g4, if_neg g5, if_pos gF0,
            if_pos gb1, if_pos gb2, if_pos gb3, validAux_zero_bounds]
          exact ht
        · by_cases hB : c < 0x100000
          · have gF0 : ¬(0xF0 + c / 262144 = 0xF0) := by omega
            have gF13 : 0xF1 ≤ 0xF0 + c / 262144 ∧ 0xF0 + c / 262144 ≤ 0xF3 := by omega
            have gb1 : 0x80 ≤ 0x80 + c / 4096 % 64 ∧ 0x80 + c / 4096 % 64 ≤ 0xBF := by
              omega
            rw [if_neg g1, if_neg g2, if_neg g3, if_neg g4, if_neg g5, if_neg gF0,
              if_pos gF13, if_pos gb1, if_pos gb2, if_pos gb3, validAux_zero_bounds]
            exact ht
          · have gF0 : ¬(0xF0 + c / 262144 = 0xF0) := by omega
            have gF13 : ¬(0xF1 ≤ 0xF0 + c / 262144 ∧ 0xF0 + c / 262144 ≤ 0xF3) := by
              omega
            have gF4 : 0xF0 + c / 262144 = 0xF4 := by omega
            have gb1 : 0x80 ≤ 0x80 + c / 4096 % 64 ∧ 0x80 + c / 4096 % 64 ≤ 0x8F := by
              omega
            rw [if_neg g1, if_neg g2, if_neg g3, if_neg g4, if_neg g5, if_neg gF0,
              if_neg gF13, if_pos gF4, if_pos gb1, if_pos gb2, if_pos gb3,
              validAux_zero_bounds]
            exact ht

theorem validString_encodeStr (cs : List ℕ) (h : ∀ c ∈ cs, GoodCp c) :
    validString (encodeStr cs) = true := by
  induction cs with
  | nil => rfl
  | cons c cs' ih =>
    rw [encodeStr_cons]
    exact validString_append_encodeChar c _ (h c (List.mem_cons_self c cs'))
      (ih (fun x hx => h x (List.mem_cons_of_mem c hx)))

theorem not_cont_take_boundary (cs : List ℕ) :
    ∀ q, q < (encodeStr cs).length → isContB ((encodeStr cs).getD q 0) = false →
      ∃ k, (encodeStr cs).take q = encodeStr (cs.take k) := by
  induction cs with
  | nil =>
    intro q hq _
    simp [encodeStr] at hq
  | cons c cs' ih =>
    intro q hq hcont
    rw [encodeStr_cons] at hq hcont ⊢
    by_cases hlt : q < (encodeChar c).length
    · rcases Nat.eq_zero_or_pos q with rfl | hpos
      · exact ⟨0, by simp [encodeStr]⟩
      · rw [List.getD_append _ _ _ _ hlt, encodeChar_getD_cont c q hpos hlt] at hcont
        simp at hcont
    · push_neg at hlt
      have hq' : q - (encodeChar c).length < (encodeStr cs').length := by
        rw [List.length_append] at hq
        omega
      have hcont' :
          isContB ((encodeStr cs').getD (q - (encodeChar c).length) 0) = false := by
        rw [List.getD_append_right _ _ _ _ hlt] at hcont
        exact hcont
      obtain ⟨k, hk⟩ := ih (q - (encodeChar c).length) hq' hcont'
      refine ⟨k + 1, ?_⟩
      rw [List.take_append_eq_append_take, List.take_of_length_le hlt, hk,
        List.take_succ_cons, encodeStr_cons]

theorem backupBoundary_le (s : GoBytes) : ∀ p, backupBoundary s p ≤ p := by
  intro p
  induction p with
  | zero => simp [backupBoundary]
  | succ p ih =>
    unfold backupBoundary
    split_ifs with h
    · omega
    · omega

theorem backupBoundary_boundary (cs : List ℕ) :
    ∀ p, p < (encodeStr cs).length →
      ∃ k, (encodeStr cs).take (backupBoundary (encodeStr cs) p) =
        encodeStr (cs.take k) := by
  intro p
  induction p with
  | zero =>
    intro _
    exact ⟨0, by simp [encodeStr, backupBoundary]⟩
  | succ p ih =>
    intro hp
    unfold backupBoundary
    split_ifs with h
    · exact ih (by omega)
    · have hcont : isContB ((encodeStr cs).getD (p + 1) 0) = false := by
        by_contra hc
        exact h ⟨hp, by simpa using hc⟩
      exact not_cont_take_boundary cs (p + 1) hp hcont

theorem truncateUTF8Safe_spec (cs : List ℕ) (good : ∀ c ∈ cs, GoodCp c)
    (maxBytes : ℕ) (h : maxBytes < (encodeStr cs).length) :
    ∃ k, truncateUTF8Safe (encodeStr cs) maxBytes = encodeStr (cs.take k) ∧
      (truncateUTF8Safe (encodeStr cs) maxBytes).length ≤ maxBytes := by
  obtain ⟨k, hk⟩ := backupBoundary_boundary cs maxBytes h
  have hgood' : ∀ c ∈ cs.take k, GoodCp c := fun c hc => good c (List.mem_of_mem_take hc)
  have hvalid :
      validString ((encodeStr cs).take (backupBoundary (encodeStr cs) maxBytes)) = true := by
    rw [hk]
    exact validString_encodeStr _ hgood'
  have heq : truncateUTF8Safe (encodeStr cs) maxBytes =
      (encodeStr cs).take (backupBoundary (encodeStr cs) maxBytes) := by
    unfold truncateUTF8Safe
    rw [if_neg (by omega), if_pos hvalid]
  refine ⟨k, heq.trans hk, ?_⟩
  rw [heq]
  exact le_trans (List.length_take_le _ _) (backupBoundary_le _ maxBytes)

/-- C7: for a valid-UTF-8 accumulated response longer than the 50,000-byte
cap, the captured text produced by the prompt extractor is at most the cap in
length, is valid UTF-8 (the cut lands on a code-point boundary, so no
multi-byte code point is split), ends with the fixed truncation marker, and
the truncated flag is set; for input at most the cap the output is the input
unchanged and the flag stays false. -/
theorem c7_prompt_truncation (s : GoBytes) (h : ValidUTF8 s) :
    (MaxPromptLength < s.length →
      (ExtractStreamingResponseContent s false).OutputResponse.length ≤ MaxPromptLength ∧
      ValidUTF8 (ExtractStreamingResponseContent s false).OutputResponse ∧
      TruncationMarker <:+ (ExtractStreamingResponseContent s false).OutputResponse ∧
      (ExtractStreamingResponseContent s false).PromptsTruncated = true) ∧
    (s.length ≤ MaxPromptLength →
      ExtractStreamingResponseContent s false = ⟨[], [], s, false⟩) := by
  obtain ⟨cs, good, rfl⟩ := h
  constructor
  · intro hlen
    have hne : encodeStr cs ≠ [] := by
      intro e
      rw [e] at hlen
      simp [MaxPromptLength] at hlen
    have hmarker : TruncationMarker.length = 14 := by decide
    have hmp : MaxPromptLength = 50000 := rfl
    have hmb : MaxPromptLength - TruncationMarker.length < (encodeStr cs).length := by
      omega
    obtain ⟨k, hk, hle⟩ := truncateUTF8Safe_spec cs good _ hmb
    have hext : ExtractStreamingResponseContent (encodeStr cs) false =
        ⟨[], [],
          truncateUTF8Safe (encodeStr cs) (MaxPromptLength - TruncationMarker.length) ++
            TruncationMarker, true⟩ := by
      unfold ExtractStreamingResponseContent
      rw [if_neg hne, if_pos hlen]
    rw [hext]
    refine ⟨?_, ?_, List.suffix_append _ _, rfl⟩
    · simp only [List.length_append]
      omega
    · rw [hk]
      refine ⟨cs.take k ++ (gostr "...[TRUNCATED]").map Char.toNat, ?_, ?_⟩
      · intro c hc
        rcases List.mem_append.mp hc with hc | hc
        · exact good c (List.mem_of_mem_take hc)
        · have hmk : ∀ c ∈ (gostr "...[TRUNCATED]").map Char.toNat, GoodCp c := by
            decide
          exact hmk c hc
      · rw [encodeStr_append]
        dsimp only
        congr 1
  · intro hlen
    by_cases hnil : encodeStr cs = []
    · unfold ExtractStreamingResponseContent
      rw [if_pos hnil, hnil]
    · unfold ExtractStreamingResponseContent
      rw [if_neg hnil, if_neg (by omega)]

/-- C7, witness. -/
theorem c7_prompt_truncation_witness :
    ExtractStreamingResponseContent [104, 105] false = ⟨[], [], [104, 105], false⟩ := by
  exact (c7_prompt_truncation [104, 105] ⟨[104, 105], by decide, rfl⟩).2 (by decide)

end Revenium
